import Mathlib

/-!
Verification of the Eclipse ship-duel Monte-Carlo simulator.

This file gives a shallow embedding of the two resolver implementations of
the repository (`battle_sim.py` and `battle_sim_numba.py`) and proves or
refutes the frozen specification claims about them.

Modelling conventions:
* Python integers are `Int`; weapon damage lists are `List Int`.
* The global random stream is an explicit list of roll outcomes consumed in
  order; running out of rolls yields `none` (the real program never runs out).
* The unbounded cannon-phase `while` loop takes a fuel parameter counting
  loop iterations; exhausting fuel yields `none` (models non-termination).
* `random.choice(["No damage", 2, 3, 4, 5, "Full hit"])` in `battle_sim.py`
  draws an element of a six-element list; the fallback and JIT engines draw
  an index `0..5`.  `rollOfFin` is the index-to-outcome translation.
-/

namespace Eclipse

/-- The six symbolic outcomes of one hit roll, mirroring the list
`["No damage", 2, 3, 4, 5, "Full hit"]` at `battle_sim.py` line 31. -/
inductive Roll where
  | noDamage
  | v2
  | v3
  | v4
  | v5
  | fullHit
  deriving DecidableEq, Fintype, Repr

/-- The literal list `["No damage", 2, 3, 4, 5, "Full hit"]` that
`random.choice` draws from uniformly (`battle_sim.py` line 31). -/
def rollChoices : List Roll :=
  [Roll.noDamage, Roll.v2, Roll.v3, Roll.v4, Roll.v5, Roll.fullHit]

/-- Translation from a uniform index `0..5` (the raw draw used by the
fallback and JIT engines, and the position inside `rollChoices`) to the
symbolic roll outcome. -/
def rollOfFin (i : Fin 6) : Roll := rollChoices.get i

/-- Numeric value of the numeric roll outcomes (`2..5`).  The two symbolic
outcomes never reach the arithmetic branch of `_hit`, their value is unused
and set to `0`. -/
def rollValue : Roll → Int
  | Roll.noDamage => 0
  | Roll.v2 => 2
  | Roll.v3 => 3
  | Roll.v4 => 4
  | Roll.v5 => 5
  | Roll.fullHit => 0

/-- A combatant record, mirroring class `Ship` of `battle_sim.py`
(also the spec-dict schema of `battle_sim_numba.py`). -/
structure Ship where
  initiative : Int
  hull : Int
  computer : Int
  shield : Int
  missiles : List Int
  cannons : List Int
  deriving DecidableEq, Repr

/-- `Ship._hit` (`battle_sim.py` lines 33-38): `"No damage"` never hits,
`"Full hit"` always hits, a numeric outcome `v` hits iff
`v + computer - target_shield >= 6`. -/
def Ship.hit (s : Ship) (roll : Roll) (targetShield : Int) : Bool :=
  match roll with
  | Roll.noDamage => false
  | Roll.fullHit => true
  | r => decide (rollValue r + s.computer - targetShield ≥ 6)

/-- `Ship._fire` (`battle_sim.py` lines 40-45): one roll per weapon entry;
on a hit the target hull drops by the entry's damage, and the volley stops
(`break`) as soon as the target is destroyed.  Returns the target's new
hull and the unconsumed rolls; `none` if the roll stream ran out. -/
def Ship.fire (s : Ship) (targetShield : Int) (weapon : List Int)
    (targetHull : Int) (rolls : List Roll) : Option (Int × List Roll) :=
  match weapon with
  | [] => some (targetHull, rolls)
  | dmg :: rest =>
    match rolls with
    | [] => none
    | r :: rs =>
      if s.hit r targetShield then
        let h := targetHull - dmg
        if h ≤ 0 then some (h, rs)
        else s.fire targetShield rest h rs
      else s.fire targetShield rest targetHull rs

/-- The final result block of `_simulate_once` (`battle_sim.py` lines
69-71): return `0` when both ships are destroyed, else `1` when ship A is
alive and `-1` otherwise.  State is kept in first/second coordinates
(`fHull`, `sHull`); `firstIsA` records whether `first is a`. -/
def finalResult (firstIsA : Bool) (fHull sHull : Int) (rolls : List Roll) :
    Option (Int × List Roll) :=
  let aHull := if firstIsA then fHull else sHull
  let bHull := if firstIsA then sHull else fHull
  if aHull ≤ 0 ∧ bHull ≤ 0 then some (0, rolls)
  else if aHull > 0 then some (1, rolls) else some (-1, rolls)

/-- The cannon-phase loop of `_simulate_once` (`battle_sim.py` lines
63-67): while both ships are alive, `first` fires its cannons at `second`;
if that destroys `second` the loop breaks, otherwise `second` fires back
and the loop repeats.  Fuel bounds the number of iterations. -/
def cannonLoop (first second : Ship) (firstIsA : Bool) :
    ℕ → Int → Int → List Roll → Option (Int × List Roll)
  | 0, _, _, _ => none
  | fuel + 1, fHull, sHull, rolls =>
    let aHull := if firstIsA then fHull else sHull
    let bHull := if firstIsA then sHull else fHull
    if aHull > 0 ∧ bHull > 0 then
      match first.fire second.shield first.cannons sHull rolls with
      | none => none
      | some (sHull2, rolls2) =>
        if sHull2 ≤ 0 then finalResult firstIsA fHull sHull2 rolls2
        else
          match second.fire first.shield second.cannons fHull rolls2 with
          | none => none
          | some (fHull2, rolls3) =>
            cannonLoop first second firstIsA fuel fHull2 sHull2 rolls3
    else finalResult firstIsA fHull sHull rolls

/-- Second half of the missile phase of `_simulate_once` (`battle_sim.py`
lines 57-60): if `second` has missiles it fires them at `first`; if that
destroys `first` the duel ends with a win for `second`. -/
def missileSecond (first second : Ship) (firstIsA : Bool) (fuel : ℕ)
    (fHull sHull : Int) (rolls : List Roll) : Option (Int × List Roll) :=
  if second.missiles ≠ [] then
    match second.fire first.shield second.missiles fHull rolls with
    | none => none
    | some (fHull1, rolls1) =>
      if fHull1 ≤ 0 then some ((if firstIsA then -1 else 1), rolls1)
      else cannonLoop first second firstIsA fuel fHull1 sHull rolls1
  else cannonLoop first second firstIsA fuel fHull sHull rolls

/-- Body of `_simulate_once` after the firing order has been fixed
(`battle_sim.py` lines 52-71): missile phase for `first` (lines 53-56),
then `missileSecond`, then the cannon loop. -/
def duelPhases (first second : Ship) (firstIsA : Bool) (fuel : ℕ)
    (rolls : List Roll) : Option (Int × List Roll) :=
  if first.missiles ≠ [] then
    match first.fire second.shield first.missiles second.hull rolls with
    | none => none
    | some (sHull1, rolls1) =>
      if sHull1 ≤ 0 then some ((if firstIsA then 1 else -1), rolls1)
      else missileSecond first second firstIsA fuel first.hull sHull1 rolls1
  else missileSecond first second firstIsA fuel first.hull second.hull rolls

/-- `_simulate_once` (`battle_sim.py` lines 48-71): the ship with strictly
higher initiative fires first (line 50, ties go to the second-named ship),
then the duel runs to completion.  Result `1` = A wins, `-1` = B wins,
`0` = draw, paired with the unconsumed rolls. -/
def simulateOnce (fuel : ℕ) (a b : Ship) (rolls : List Roll) :
    Option (Int × List Roll) :=
  if a.initiative > b.initiative then duelPhases a b true fuel rolls
  else duelPhases b a false fuel rolls

/-- The trial loop of `win_probability` (`battle_sim.py` lines 98-103):
run the given number of battles with fresh ships, counting those whose
outcome is `1`. -/
def runTrials (a b : Ship) (fuel : ℕ) :
    ℕ → List Roll → Option (ℕ × List Roll)
  | 0, rolls => some (0, rolls)
  | k + 1, rolls =>
    match simulateOnce fuel a b rolls with
    | none => none
    | some (o, rolls1) =>
      match runTrials a b fuel k rolls1 with
      | none => none
      | some (w, rolls2) => some ((if o = 1 then 1 else 0) + w, rolls2)

/-- Result of one call of `win_probability`: either a numeric probability,
or the `ZeroDivisionError` Python raises at `wins / simulations` when
`simulations = 0`. -/
inductive RunResult where
  | value (q : ℚ)
  | zeroDivError
  deriving DecidableEq, Repr

/-- `win_probability` (`battle_sim.py` lines 75-104) minus the seeding
line: run `simulations` trials (Python's `range` yields no iterations for
a non-positive count), then return `wins / simulations`.  Dividing by a
zero trial count raises `ZeroDivisionError`. -/
def winProbability (a b : Ship) (sims : Int) (rolls : List Roll)
    (fuel : ℕ) : Option RunResult :=
  match runTrials a b fuel sims.toNat rolls with
  | none => none
  | some (w, _) =>
    if sims = 0 then some RunResult.zeroDivError
    else some (RunResult.value ((w : ℚ) / (sims : ℚ)))

/-- `win_probability` including lines 95-96: when a seed is supplied the
global RNG is re-seeded, so the consumed stream is a function of the seed
alone (`rng`); otherwise the pre-call stream `state` is consumed. -/
def winProbabilitySeeded (rng : Int → List Roll) (state : List Roll)
    (seed : Option Int) (a b : Ship) (sims : Int) (fuel : ℕ) :
    Option RunResult :=
  match seed with
  | some s => winProbability a b sims (rng s) fuel
  | none => winProbability a b sims state fuel

/-- `_roll_hit_py` (`battle_sim_numba.py` lines 149-156): raw draw
`r ∈ 0..5`; `0` is "No damage", `5` is "Full hit", otherwise the numeric
value is `r + 1` and the shot hits iff `val + comp - shield >= 6`. -/
def rollHitPy (comp shield : Int) (r : Fin 6) : Bool :=
  if r.val = 0 then false
  else if r.val = 5 then true
  else decide ((r.val : Int) + 1 + comp - shield ≥ 6)

/-- `_fire_sequence_py` (`battle_sim_numba.py` lines 158-167): apply an
entire damage list, one roll per entry, returning early once the enemy's
hit points drop to `0` or below. -/
def fireSeqPy (damageSeq : List Int) (comp enemyShield : Int)
    (enemyHp : Int) (rolls : List (Fin 6)) : Option (Int × List (Fin 6)) :=
  match damageSeq with
  | [] => some (enemyHp, rolls)
  | dmg :: rest =>
    match rolls with
    | [] => none
    | r :: rs =>
      if rollHitPy comp enemyShield r then
        let hp := enemyHp - dmg
        if hp ≤ 0 then some (hp, rs)
        else fireSeqPy rest comp enemyShield hp rs
      else fireSeqPy rest comp enemyShield enemyHp rs

/-- Cannon phase of `_battle_once_py` (`battle_sim_numba.py` lines
194-213): an endless loop, duplicated per firing order, returning `true`
when ship A wins and `false` when ship B wins. -/
def cannonLoopPy (specA specB : Ship) (aFirst : Bool) :
    ℕ → Int → Int → List (Fin 6) → Option (Bool × List (Fin 6))
  | 0, _, _, _ => none
  | fuel + 1, aHp, bHp, rolls =>
    if aFirst then
      match fireSeqPy specA.cannons specA.computer specB.shield bHp rolls with
      | none => none
      | some (bHp1, r1) =>
        if bHp1 ≤ 0 then some (true, r1)
        else
          match fireSeqPy specB.cannons specB.computer specA.shield aHp r1 with
          | none => none
          | some (aHp1, r2) =>
            if aHp1 ≤ 0 then some (false, r2)
            else cannonLoopPy specA specB aFirst fuel aHp1 bHp1 r2
    else
      match fireSeqPy specB.cannons specB.computer specA.shield aHp rolls with
      | none => none
      | some (aHp1, r1) =>
        if aHp1 ≤ 0 then some (false, r1)
        else
          match fireSeqPy specA.cannons specA.computer specB.shield bHp r1 with
          | none => none
          | some (bHp1, r2) =>
            if bHp1 ≤ 0 then some (true, r2)
            else cannonLoopPy specA specB aFirst fuel aHp1 bHp1 r2

/-- `_battle_once_py` after the firing-order decision (`battle_sim_numba.py`
lines 170-213): the missile phase, duplicated per firing order, followed by
the cannon loop. -/
def battlePhasesPy (specA specB : Ship) (aFirst : Bool) (fuel : ℕ)
    (rolls : List (Fin 6)) : Option (Bool × List (Fin 6)) :=
  let aHp := specA.hull
  let bHp := specB.hull
  if aFirst then
    match fireSeqPy specA.missiles specA.computer specB.shield bHp rolls with
    | none => none
    | some (bHp1, r1) =>
      if bHp1 ≤ 0 then some (true, r1)
      else
        match fireSeqPy specB.missiles specB.computer specA.shield aHp r1 with
        | none => none
        | some (aHp1, r2) =>
          if aHp1 ≤ 0 then some (false, r2)
          else cannonLoopPy specA specB aFirst fuel aHp1 bHp1 r2
  else
    match fireSeqPy specB.missiles specB.computer specA.shield aHp rolls with
    | none => none
    | some (aHp1, r1) =>
      if aHp1 ≤ 0 then some (false, r1)
      else
        match fireSeqPy specA.missiles specA.computer specB.shield bHp r1 with
        | none => none
        | some (bHp1, r2) =>
          if bHp1 ≤ 0 then some (true, r2)
          else cannonLoopPy specA specB aFirst fuel aHp1 bHp1 r2

/-- `_battle_once_py` (`battle_sim_numba.py` lines 169-213): ship A fires
first iff its initiative is strictly higher (line 172). -/
def battleOncePy (fuel : ℕ) (specA specB : Ship) (rolls : List (Fin 6)) :
    Option (Bool × List (Fin 6)) :=
  battlePhasesPy specA specB (decide (specA.initiative > specB.initiative))
    fuel rolls

/-- The `_VALUES` dice table of the JIT engine (`battle_sim_numba.py` line
50): `-1` encodes "No damage", `-2` encodes "Full hit". -/
def jitValues : List Int := [-1, 2, 3, 4, 5, -2]

/-- `_roll_hit` (`battle_sim_numba.py` lines 54-63): raw draw `r ∈ 0..5`
mapped through `_VALUES`; `-1` misses, `-2` hits, a numeric value hits iff
`val + comp - shield >= 6`. -/
def rollHitJit (comp shield : Int) (r : Fin 6) : Bool :=
  let val := jitValues.get r
  if val = -1 then false
  else if val = -2 then true
  else decide (val + comp - shield ≥ 6)

/-- `_fire_sequence` (`battle_sim_numba.py` lines 65-76), identical in
shape to the pure-Python `_fire_sequence_py` but using the JIT dice
table. -/
def fireSeqJit (dmgArr : List Int) (comp enemyShield : Int)
    (enemyHp : Int) (rolls : List (Fin 6)) : Option (Int × List (Fin 6)) :=
  match dmgArr with
  | [] => some (enemyHp, rolls)
  | dmg :: rest =>
    match rolls with
    | [] => none
    | r :: rs =>
      if rollHitJit comp enemyShield r then
        let hp := enemyHp - dmg
        if hp ≤ 0 then some (hp, rs)
        else fireSeqJit rest comp enemyShield hp rs
      else fireSeqJit rest comp enemyShield enemyHp rs

/-- Cannon phase of `_battle_once` (`battle_sim_numba.py` lines 113-129):
returns `1` when ship A wins and `0` when ship B wins. -/
def cannonLoopJit (specA specB : Ship) (aFirst : Bool) :
    ℕ → Int → Int → List (Fin 6) → Option (Int × List (Fin 6))
  | 0, _, _, _ => none
  | fuel + 1, aHp, bHp, rolls =>
    if aFirst then
      match fireSeqJit specA.cannons specA.computer specB.shield bHp rolls with
      | none => none
      | some (bHp1, r1) =>
        if bHp1 ≤ 0 then some (1, r1)
        else
          match fireSeqJit specB.cannons specB.computer specA.shield aHp r1 with
          | none => none
          | some (aHp1, r2) =>
            if aHp1 ≤ 0 then some (0, r2)
            else cannonLoopJit specA specB aFirst fuel aHp1 bHp1 r2
    else
      match fireSeqJit specB.cannons specB.computer specA.shield aHp rolls with
      | none => none
      | some (aHp1, r1) =>
        if aHp1 ≤ 0 then some (0, r1)
        else
          match fireSeqJit specA.cannons specA.computer specB.shield bHp r1 with
          | none => none
          | some (bHp1, r2) =>
            if bHp1 ≤ 0 then some (1, r2)
            else cannonLoopJit specA specB aFirst fuel aHp1 bHp1 r2

/-- `_battle_once` after the firing-order decision (`battle_sim_numba.py`
lines 97-129): missile phase then cannon loop, duplicated per order. -/
def battlePhasesJit (specA specB : Ship) (aFirst : Bool) (fuel : ℕ)
    (rolls : List (Fin 6)) : Option (Int × List (Fin 6)) :=
  let aHp := specA.hull
  let bHp := specB.hull
  if aFirst then
    match fireSeqJit specA.missiles specA.computer specB.shield bHp rolls with
    | none => none
    | some (bHp1, r1) =>
      if bHp1 ≤ 0 then some (1, r1)
      else
        match fireSeqJit specB.missiles specB.computer specA.shield aHp r1 with
        | none => none
        | some (aHp1, r2) =>
          if aHp1 ≤ 0 then some (0, r2)
          else cannonLoopJit specA specB aFirst fuel aHp1 bHp1 r2
  else
    match fireSeqJit specB.missiles specB.computer specA.shield aHp rolls with
    | none => none
    | some (aHp1, r1) =>
      if aHp1 ≤ 0 then some (0, r1)
      else
        match fireSeqJit specA.missiles specA.computer specB.shield bHp r1 with
        | none => none
        | some (bHp1, r2) =>
          if bHp1 ≤ 0 then some (1, r2)
          else cannonLoopJit specA specB aFirst fuel aHp1 bHp1 r2

/-- `_battle_once` (`battle_sim_numba.py` lines 78-129): ship A fires
first iff `a_init > b_init` (lines 94-95). -/
def battleOnceJit (fuel : ℕ) (specA specB : Ship) (rolls : List (Fin 6)) :
    Option (Int × List (Fin 6)) :=
  battlePhasesJit specA specB (decide (specA.initiative > specB.initiative))
    fuel rolls

/-- One recorded shot of the instrumented resolver: whether the firer is
ship A, and the firer's own remaining hull at the moment the roll for that
shot is drawn. -/
abbrev Shot := Bool × Int

/-- `Ship._fire` instrumented with a ghost shot trace: behaviour is
identical to `Ship.fire` (see `fireTr_fst`), and additionally every roll
drawn is recorded together with the firer's identity and current hull. -/
def Ship.fireTr (s : Ship) (firerIsA : Bool) (firerHull : Int)
    (targetShield : Int) (weapon : List Int) (targetHull : Int)
    (rolls : List Roll) : Option (Int × List Roll × List Shot) :=
  match weapon with
  | [] => some (targetHull, rolls, [])
  | dmg :: rest =>
    match rolls with
    | [] => none
    | r :: rs =>
      if s.hit r targetShield then
        let h := targetHull - dmg
        if h ≤ 0 then some (h, rs, [(firerIsA, firerHull)])
        else
          (s.fireTr firerIsA firerHull targetShield rest h rs).map
            (fun p => (p.1, p.2.1, (firerIsA, firerHull) :: p.2.2))
      else
        (s.fireTr firerIsA firerHull targetShield rest targetHull rs).map
          (fun p => (p.1, p.2.1, (firerIsA, firerHull) :: p.2.2))

/-- `cannonLoop` instrumented with the ghost shot trace. -/
def cannonLoopTr (first second : Ship) (firstIsA : Bool) :
    ℕ → Int → Int → List Roll → Option (Int × List Roll × List Shot)
  | 0, _, _, _ => none
  | fuel + 1, fHull, sHull, rolls =>
    let aHull := if firstIsA then fHull else sHull
    let bHull := if firstIsA then sHull else fHull
    if aHull > 0 ∧ bHull > 0 then
      match first.fireTr firstIsA fHull second.shield first.cannons sHull
          rolls with
      | none => none
      | some (sHull2, rolls2, t1) =>
        if sHull2 ≤ 0 then
          (finalResult firstIsA fHull sHull2 rolls2).map
            (fun p => (p.1, p.2, t1))
        else
          match second.fireTr (!firstIsA) sHull2 first.shield second.cannons
              fHull rolls2 with
          | none => none
          | some (fHull2, rolls3, t2) =>
            (cannonLoopTr first second firstIsA fuel fHull2 sHull2
                rolls3).map (fun p => (p.1, p.2.1, t1 ++ t2 ++ p.2.2))
    else (finalResult firstIsA fHull sHull rolls).map
      (fun p => (p.1, p.2, []))

/-- `missileSecond` instrumented with the ghost shot trace. -/
def missileSecondTr (first second : Ship) (firstIsA : Bool) (fuel : ℕ)
    (fHull sHull : Int) (rolls : List Roll) :
    Option (Int × List Roll × List Shot) :=
  if second.missiles ≠ [] then
    match second.fireTr (!firstIsA) sHull first.shield second.missiles fHull
        rolls with
    | none => none
    | some (fHull1, rolls1, t1) =>
      if fHull1 ≤ 0 then some ((if firstIsA then -1 else 1), rolls1, t1)
      else
        (cannonLoopTr first second firstIsA fuel fHull1 sHull rolls1).map
          (fun p => (p.1, p.2.1, t1 ++ p.2.2))
  else cannonLoopTr first second firstIsA fuel fHull sHull rolls

/-- `duelPhases` instrumented with the ghost shot trace. -/
def duelPhasesTr (first second : Ship) (firstIsA : Bool) (fuel : ℕ)
    (rolls : List Roll) : Option (Int × List Roll × List Shot) :=
  if first.missiles ≠ [] then
    match first.fireTr firstIsA first.hull second.shield first.missiles
        second.hull rolls with
    | none => none
    | some (sHull1, rolls1, t1) =>
      if sHull1 ≤ 0 then some ((if firstIsA then 1 else -1), rolls1, t1)
      else
        (missileSecondTr first second firstIsA fuel first.hull sHull1
            rolls1).map (fun p => (p.1, p.2.1, t1 ++ p.2.2))
  else missileSecondTr first second firstIsA fuel first.hull second.hull rolls

/-- `simulateOnce` instrumented with the ghost shot trace. -/
def simulateOnceTr (fuel : ℕ) (a b : Ship) (rolls : List Roll) :
    Option (Int × List Roll × List Shot) :=
  if a.initiative > b.initiative then duelPhasesTr a b true fuel rolls
  else duelPhasesTr b a false fuel rolls

/-- The shot trace of an instrumented run (empty when the run did not
finish). -/
def shotTrace (r : Option (Int × List Roll × List Shot)) : List Shot :=
  match r with
  | none => []
  | some p => p.2.2

/-- Ship A of the sudden-death scenario (test case 1 of
`test_battle_sim.py`, quoted by claim C2). -/
def shipA1 : Ship := ⟨5, 1, 2, 1, [], [1]⟩

/-- Ship B of the sudden-death scenario. -/
def shipB1 : Ship := ⟨4, 1, 1, 1, [], [1]⟩

example : simulateOnce 3 shipA1 shipB1 [Roll.v5] = some (1, []) := by decide

example : simulateOnce 3 shipA1 shipB1 [Roll.v4, Roll.fullHit] =
    some (-1, []) := by decide

example : simulateOnce 3 shipA1 shipB1 [Roll.v2, Roll.v3, Roll.fullHit] =
    some (1, []) := by decide

example : winProbability shipA1 shipB1 2 [Roll.v5, Roll.v4, Roll.fullHit] 3 =
    some (RunResult.value (1 / 2)) := by
  have h : runTrials shipA1 shipB1 3 (Int.toNat 2)
      [Roll.v5, Roll.v4, Roll.fullHit] = some (1, []) := by decide
  rw [winProbability, h]
  norm_num

/-- A degenerate (malformed) ship: hull already `0`, one cannon.  The spec
requires such specs to be rejected; `battle_sim.py` never validates. -/
def zShip : Ship := ⟨5, 0, 0, 0, [], [1]⟩

/-- Its opponent, also with hull `0`. -/
def zShipB : Ship := ⟨4, 0, 0, 0, [], [1]⟩

example : simulateOnce 1 zShip zShipB [] = some (0, []) := by decide

example : battleOncePy 1 zShip zShipB [] = some (true, []) := by decide

example : simulateOnceTr 1 ⟨5, 0, 0, 0, [1], []⟩ ⟨4, 2, 0, 0, [], []⟩
    [Roll.noDamage] = some (-1, [], [(true, 0)]) := by decide

/-- The per-roll hit decision of the pure-Python fallback agrees with the
plain resolver's `_hit` under the index-to-outcome translation. -/
lemma rollHitPy_eq_hit (s : Ship) (tS : Int) (r : Fin 6) :
    rollHitPy s.computer tS r = s.hit (rollOfFin r) tS := by
  fin_cases r <;>
    simp only [rollHitPy, rollOfFin, rollChoices, Ship.hit, rollValue,
      List.get] <;> norm_num

/-- C1.  Single-shot hit resolution: the six roll outcomes are drawn from
the six-element list `rollChoices` via a bijective index translation (so a
uniform index draw induces a uniform draw over six equiprobable outcomes);
`Miss` never hits, `AutoHit` always hits, and a numeric outcome `v ∈
{2,3,4,5}` hits exactly when `v + computer - shield ≥ 6` (`≥`, not `>`);
and the pure-Python fallback's `_roll_hit_py` resolves every raw draw the
same way as the plain resolver's `_hit`. -/
theorem C1_single_shot_hit :
    (∀ (s : Ship) (tS : Int), s.hit Roll.noDamage tS = false)
    ∧ (∀ (s : Ship) (tS : Int), s.hit Roll.fullHit tS = true)
    ∧ (∀ (s : Ship) (tS : Int),
        s.hit Roll.v2 tS = decide (2 + s.computer - tS ≥ 6))
    ∧ (∀ (s : Ship) (tS : Int),
        s.hit Roll.v3 tS = decide (3 + s.computer - tS ≥ 6))
    ∧ (∀ (s : Ship) (tS : Int),
        s.hit Roll.v4 tS = decide (4 + s.computer - tS ≥ 6))
    ∧ (∀ (s : Ship) (tS : Int),
        s.hit Roll.v5 tS = decide (5 + s.computer - tS ≥ 6))
    ∧ (∀ (s : Ship) (tS : Int) (r : Fin 6),
        rollHitPy s.computer tS r = s.hit (rollOfFin r) tS)
    ∧ Function.Bijective rollOfFin
    ∧ rollChoices.length = 6 := by
  refine ⟨fun s tS => rfl, fun s tS => rfl, fun s tS => rfl, fun s tS => rfl,
    fun s tS => rfl, fun s tS => rfl, rollHitPy_eq_hit, by decide, rfl⟩

/-- C5.  Determinism under a fixed seed: when a seed is supplied,
`win_probability` re-seeds the global RNG, so the result is a function of
the seed, the specs, and the trial count only — independent of the RNG
state left behind by any earlier call.  Two identical single-threaded
calls therefore return identical results. -/
theorem C5_seed_determinism :
    ∀ (rng : Int → List Roll) (st1 st2 : List Roll) (s : Int) (a b : Ship)
      (sims : Int) (fuel : ℕ),
      winProbabilitySeeded rng st1 (some s) a b sims fuel =
        winProbabilitySeeded rng st2 (some s) a b sims fuel :=
  fun _ _ _ _ _ _ _ _ => rfl

/-- C7 (counterexample).  The claim says a zero-or-negative trial count is
always rejected with an error and never yields a numeric result; but a
negative trial count runs an empty loop and silently returns the numeric
value `0/(-3) = -0.0`. -/
theorem C7_counterexample :
    winProbability zShip zShipB (-3) [] 1 = some (RunResult.value 0) := by
  have h : runTrials zShip zShipB 1 (Int.toNat (-3)) [] = some (0, []) := rfl
  rw [winProbability, h]
  norm_num

/-- C7 (amended).  A trial count of exactly zero is rejected — the empty
loop runs and then `wins / simulations` raises `ZeroDivisionError` — but a
negative trial count is NOT rejected: the loop body never executes and the
call silently returns the numeric result `0`. -/
theorem C7_amended_trial_count :
    (∀ (a b : Ship) (rolls : List Roll) (fuel : ℕ),
        winProbability a b 0 rolls fuel = some RunResult.zeroDivError)
    ∧ (∀ (a b : Ship) (rolls : List Roll) (fuel : ℕ) (sims : Int),
        sims < 0 →
        winProbability a b sims rolls fuel = some (RunResult.value 0)) := by
  constructor
  · intro a b rolls fuel
    rfl
  · intro a b rolls fuel sims hneg
    have h0 : sims.toNat = 0 := Int.toNat_of_nonpos hneg.le
    have h : runTrials a b fuel sims.toNat rolls = some (0, rolls) := by
      rw [h0]
      rfl
    rw [winProbability, h]
    simp [hneg.ne]

/-- C7 (witness for the amended theorem). -/
theorem C7_amended_witness :
    (-3 : Int) < 0 ∧
      winProbability zShip zShipB (-3) [] 1 = some (RunResult.value 0) :=
  ⟨by norm_num, C7_amended_trial_count.2 zShip zShipB [] 1 (-3) (by norm_num)⟩

/-- C8 (code bug).  The spec demands that a malformed spec (non-positive
hull, negative damage) be rejected before any trial executes, but
`win_probability` performs no validation at all: with both hulls `0` it
happily runs all three requested trials (each returning a draw) and
returns the numeric result `0.0`. -/
theorem C8_no_spec_validation :
    winProbability zShip zShipB 3 [] 1 = some (RunResult.value 0) := by
  have h : runTrials zShip zShipB 1 (Int.toNat 3) [] = some (0, []) := by
    decide
  rw [winProbability, h]
  norm_num

/-- The both-alive loop condition, written in a/b coordinates in the
source, is the same predicate on the first/second hulls whichever ship is
first. -/
lemma alive_cond (flag : Bool) (x y : Int) :
    ((if flag then x else y) > 0 ∧ (if flag then y else x) > 0) ↔
      (0 < x ∧ 0 < y) := by
  cases flag <;> simp <;> omega

/-- The both-destroyed draw condition is likewise order-symmetric. -/
lemma dead_cond (flag : Bool) (x y : Int) :
    ((if flag then x else y) ≤ 0 ∧ (if flag then y else x) ≤ 0) ↔
      (x ≤ 0 ∧ y ≤ 0) := by
  cases flag <;> simp <;> omega

/-- If at least one ship is still alive, the final result block cannot
report a draw. -/
lemma finalResult_outcome {flag : Bool} {fH sH : Int} {rolls : List Roll}
    {o : Int} {rr : List Roll} (h : 0 < fH ∨ 0 < sH)
    (he : finalResult flag fH sH rolls = some (o, rr)) : o = 1 ∨ o = -1 := by
  simp only [finalResult, dead_cond] at he
  rw [if_neg (by omega)] at he
  split_ifs at he <;>
    simp only [Option.some.injEq, Prod.mk.injEq] at he <;> omega

/-- The cannon loop cannot report a draw when it starts with at least one
ship alive. -/
lemma cannonLoop_outcome (fuel : ℕ) :
    ∀ {first second : Ship} {flag : Bool} {fH sH : Int} {rolls : List Roll}
      {o : Int} {rr : List Roll}, (0 < fH ∨ 0 < sH) →
      cannonLoop first second flag fuel fH sH rolls = some (o, rr) →
      o = 1 ∨ o = -1 := by
  induction fuel with
  | zero =>
    intro first second flag fH sH rolls o rr h he
    simp [cannonLoop] at he
  | succ n ih =>
    intro first second flag fH sH rolls o rr h he
    simp only [cannonLoop, alive_cond] at he
    by_cases hc : 0 < fH ∧ 0 < sH
    · rw [if_pos hc] at he
      split at he
      · exact Option.noConfusion he
      · next xo1 sH2 r2 heq1 =>
        by_cases hs2 : sH2 ≤ 0
        · rw [if_pos hs2] at he
          exact finalResult_outcome (Or.inl hc.1) he
        · rw [if_neg hs2] at he
          split at he
          · exact Option.noConfusion he
          · next xo2 fH2 r3 heq2 =>
            exact ih (Or.inr (by omega)) he
    · rw [if_neg hc] at he
      exact finalResult_outcome h he

/-- The second missile volley plus cannon phase cannot report a draw when
both ships enter it alive. -/
lemma missileSecond_outcome {first second : Ship} {flag : Bool} {fuel : ℕ}
    {fH sH : Int} {rolls : List Roll} {o : Int} {rr : List Roll}
    (hf : 0 < fH) (hs : 0 < sH)
    (he : missileSecond first second flag fuel fH sH rolls = some (o, rr)) :
    o = 1 ∨ o = -1 := by
  rw [missileSecond] at he
  by_cases hm : second.missiles ≠ []
  · rw [if_pos hm] at he
    split at he
    · exact Option.noConfusion he
    · next xo1 fH1 r1 heq1 =>
      by_cases hd : fH1 ≤ 0
      · rw [if_pos hd] at he
        simp only [Option.some.injEq, Prod.mk.injEq] at he
        cases flag <;> simp at he <;> omega
      · rw [if_neg hd] at he
        exact cannonLoop_outcome fuel (Or.inr hs) he
  · rw [if_neg hm] at he
    exact cannonLoop_outcome fuel (Or.inl hf) he

/-- A whole duel with both starting hulls positive cannot report a draw. -/
lemma duelPhases_outcome {first second : Ship} {flag : Bool} {fuel : ℕ}
    {rolls : List Roll} {o : Int} {rr : List Roll}
    (hf : 0 < first.hull) (hs : 0 < second.hull)
    (he : duelPhases first second flag fuel rolls = some (o, rr)) :
    o = 1 ∨ o = -1 := by
  rw [duelPhases] at he
  by_cases hm : first.missiles ≠ []
  · rw [if_pos hm] at he
    split at he
    · exact Option.noConfusion he
    · next xo1 sH1 r1 heq1 =>
      by_cases hd : sH1 ≤ 0
      · rw [if_pos hd] at he
        simp only [Option.some.injEq, Prod.mk.injEq] at he
        cases flag <;> simp at he <;> omega
      · rw [if_neg hd] at he
        exact missileSecond_outcome hf (by omega) he
  · rw [if_neg hm] at he
    exact missileSecond_outcome hf hs he

/-- `_simulate_once` never returns a draw when both hulls start positive. -/
lemma simulateOnce_no_draw {a b : Ship} {fuel : ℕ} {rolls : List Roll}
    {o : Int} {rr : List Roll} (ha : 0 < a.hull) (hb : 0 < b.hull)
    (he : simulateOnce fuel a b rolls = some (o, rr)) : o = 1 ∨ o = -1 := by
  rw [simulateOnce] at he
  split_ifs at he
  · exact duelPhases_outcome ha hb he
  · exact duelPhases_outcome hb ha he

/-- C4 (counterexample).  The claim asserts a draw is reachable because in
some code path the second volley fires after the first volley already
destroyed its firer; in fact for every pair of specs whose hulls start
positive (the only way a hull can "reach" `≤ 0`), no roll sequence makes
`_simulate_once` return `0`. -/
theorem C4_counterexample :
    ¬ ∃ (a b : Ship) (fuel : ℕ) (rolls rr : List Roll),
        0 < a.hull ∧ 0 < b.hull ∧
        simulateOnce fuel a b rolls = some (0, rr) := by
  rintro ⟨a, b, fuel, rolls, rr, ha, hb, he⟩
  rcases simulateOnce_no_draw ha hb he with h | h <;> norm_num at h

/-- C4 (amended).  In the plain implementation a Draw outcome is reachable
only from malformed specs: with both starting hulls positive no roll
sequence yields result `0`, and no volley ever fires after its firer was
destroyed; but when both hulls are already `≤ 0` at setup,
`_simulate_once` skips every phase and returns `0` directly. -/
theorem C4_amended_draw_only_degenerate :
    (¬ ∃ (a b : Ship) (fuel : ℕ) (rolls rr : List Roll),
        0 < a.hull ∧ 0 < b.hull ∧
        simulateOnce fuel a b rolls = some (0, rr))
    ∧ simulateOnce 1 zShip zShipB [] = some (0, [])
    ∧ zShip.hull ≤ 0 ∧ zShipB.hull ≤ 0 := by
  refine ⟨?_, by decide, by decide, by decide⟩
  rintro ⟨a, b, fuel, rolls, rr, ha, hb, he⟩
  rcases simulateOnce_no_draw ha hb he with h | h <;> norm_num at h

/-- Dropping the ghost trace from `fireTr` recovers `fire` exactly. -/
lemma fireTr_fst (s : Ship) (flag : Bool) (fh tS : Int) :
    ∀ (w : List Int) (th : Int) (rolls : List Roll),
      (s.fireTr flag fh tS w th rolls).map (fun p => (p.1, p.2.1)) =
        s.fire tS w th rolls := by
  intro w
  induction w with
  | nil => intro th rolls; rfl
  | cons dmg rest ih =>
    intro th rolls
    cases rolls with
    | nil => rfl
    | cons r rs =>
      simp only [Ship.fireTr, Ship.fire]
      by_cases hh : s.hit r tS
      · rw [if_pos hh, if_pos hh]
        by_cases hd : th - dmg ≤ 0
        · rw [if_pos hd, if_pos hd]
          rfl
        · rw [if_neg hd, if_neg hd]
          rw [Option.map_map]
          rw [← ih (th - dmg) rs]
          rfl
      · rw [if_neg hh, if_neg hh]
        rw [Option.map_map]
        rw [← ih th rs]
        rfl

/-- Dropping the ghost trace from `cannonLoopTr` recovers `cannonLoop`. -/
lemma cannonLoopTr_fst (first second : Ship) (flag : Bool) :
    ∀ (fuel : ℕ) (fH sH : Int) (rolls : List Roll),
      (cannonLoopTr first second flag fuel fH sH rolls).map
          (fun p => (p.1, p.2.1)) =
        cannonLoop first second flag fuel fH sH rolls := by
  intro fuel
  induction fuel with
  | zero => intro fH sH rolls; rfl
  | succ n ih =>
    intro fH sH rolls
    simp only [cannonLoopTr, cannonLoop]
    by_cases hc : (if flag then fH else sH) > 0 ∧ (if flag then sH else fH) > 0
    · rw [if_pos hc, if_pos hc]
      rw [← fireTr_fst first flag fH second.shield first.cannons sH rolls]
      cases hf1 : first.fireTr flag fH second.shield first.cannons sH rolls with
      | none => rfl
      | some q1 =>
        obtain ⟨sH2, r2, t1⟩ := q1
        simp only [Option.map_some']
        by_cases hs2 : sH2 ≤ 0
        · rw [if_pos hs2, if_pos hs2]
          cases finalResult flag fH sH2 r2 <;> rfl
        · rw [if_neg hs2, if_neg hs2]
          rw [← fireTr_fst second (!flag) sH2 first.shield second.cannons fH r2]
          cases hf2 : second.fireTr (!flag) sH2 first.shield second.cannons fH
              r2 with
          | none => rfl
          | some q2 =>
            obtain ⟨fH2, r3, t2⟩ := q2
            simp only [Option.map_some']
            rw [Option.map_map, ← ih fH2 sH2 r3]
            rfl
    · rw [if_neg hc, if_neg hc]
      cases finalResult flag fH sH rolls <;> rfl

/-- Dropping the ghost trace from `missileSecondTr` recovers
`missileSecond`. -/
lemma missileSecondTr_fst (first second : Ship) (flag : Bool) (fuel : ℕ)
    (fH sH : Int) (rolls : List Roll) :
    (missileSecondTr first second flag fuel fH sH rolls).map
        (fun p => (p.1, p.2.1)) =
      missileSecond first second flag fuel fH sH rolls := by
  simp only [missileSecondTr, missileSecond]
  by_cases hm : second.missiles ≠ []
  · rw [if_pos hm, if_pos hm]
    rw [← fireTr_fst second (!flag) sH first.shield second.missiles fH rolls]
    cases hf1 : second.fireTr (!flag) sH first.shield second.missiles fH
        rolls with
    | none => rfl
    | some q1 =>
      obtain ⟨fH1, r1, t1⟩ := q1
      simp only [Option.map_some']
      by_cases hd : fH1 ≤ 0
      · rw [if_pos hd, if_pos hd]
        rfl
      · rw [if_neg hd, if_neg hd]
        rw [Option.map_map, ← cannonLoopTr_fst first second flag fuel fH1 sH r1]
        rfl
  · rw [if_neg hm, if_neg hm]
    exact cannonLoopTr_fst first second flag fuel fH sH rolls

/-- Dropping the ghost trace from `duelPhasesTr` recovers `duelPhases`. -/
lemma duelPhasesTr_fst (first second : Ship) (flag : Bool) (fuel : ℕ)
    (rolls : List Roll) :
    (duelPhasesTr first second flag fuel rolls).map (fun p => (p.1, p.2.1)) =
      duelPhases first second flag fuel rolls := by
  simp only [duelPhasesTr, duelPhases]
  by_cases hm : first.missiles ≠ []
  · rw [if_pos hm, if_pos hm]
    rw [← fireTr_fst first flag first.hull second.shield first.missiles
      second.hull rolls]
    cases hf1 : first.fireTr flag first.hull second.shield first.missiles
        second.hull rolls with
    | none => rfl
    | some q1 =>
      obtain ⟨sH1, r1, t1⟩ := q1
      simp only [Option.map_some']
      by_cases hd : sH1 ≤ 0
      · rw [if_pos hd, if_pos hd]
        rfl
      · rw [if_neg hd, if_neg hd]
        rw [Option.map_map,
          ← missileSecondTr_fst first second flag fuel first.hull sH1 r1]
        rfl
  · rw [if_neg hm, if_neg hm]
    exact missileSecondTr_fst first second flag fuel first.hull second.hull
      rolls

/-- Dropping the ghost trace from `simulateOnceTr` recovers
`simulateOnce`: the instrumentation is faithful. -/
lemma simulateOnceTr_fst (fuel : ℕ) (a b : Ship) (rolls : List Roll) :
    (simulateOnceTr fuel a b rolls).map (fun p => (p.1, p.2.1)) =
      simulateOnce fuel a b rolls := by
  rw [simulateOnceTr, simulateOnce]
  split_ifs
  · exact duelPhasesTr_fst a b true fuel rolls
  · exact duelPhasesTr_fst b a false fuel rolls

/-- Every shot recorded by `fireTr` carries the firer's identity and the
hull value passed in: the firer's hull does not change during its own
volley. -/
lemma fireTr_trace (s : Ship) (flag : Bool) (fh tS : Int) :
    ∀ (w : List Int) (th : Int) (rolls : List Roll)
      (res : Int × List Roll × List Shot),
      s.fireTr flag fh tS w th rolls = some res →
      ∀ p ∈ res.2.2, p = (flag, fh) := by
  intro w
  induction w with
  | nil =>
    intro th rolls res he p hp
    obtain rfl := (Option.some.inj he).symm
    simp at hp
  | cons dmg rest ih =>
    intro th rolls res he p hp
    cases rolls with
    | nil => exact Option.noConfusion he
    | cons r rs =>
      simp only [Ship.fireTr] at he
      by_cases hh : s.hit r tS
      · rw [if_pos hh] at he
        by_cases hd : th - dmg ≤ 0
        · rw [if_pos hd] at he
          obtain rfl := (Option.some.inj he).symm
          simpa using hp
        · rw [if_neg hd] at he
          cases hrec : s.fireTr flag fh tS rest (th - dmg) rs with
          | none => rw [hrec] at he; exact Option.noConfusion he
          | some q =>
            rw [hrec, Option.map_some'] at he
            obtain rfl := (Option.some.inj he).symm
            rcases List.mem_cons.mp hp with rfl | hp'
            · rfl
            · exact ih (th - dmg) rs q hrec p hp'
      · rw [if_neg hh] at he
        cases hrec : s.fireTr flag fh tS rest th rs with
        | none => rw [hrec] at he; exact Option.noConfusion he
        | some q =>
          rw [hrec, Option.map_some'] at he
          obtain rfl := (Option.some.inj he).symm
          rcases List.mem_cons.mp hp with rfl | hp'
          · rfl
          · exact ih th rs q hrec p hp'

/-- Every shot recorded during the cannon loop is fired by a ship whose
hull is positive at that moment (the loop condition guards the first
volley, the break check guards the second). -/
lemma cannonLoopTr_trace (first second : Ship) (flag : Bool) :
    ∀ (fuel : ℕ) (fH sH : Int) (rolls : List Roll)
      (res : Int × List Roll × List Shot),
      cannonLoopTr first second flag fuel fH sH rolls = some res →
      ∀ p ∈ res.2.2, 0 < p.2 := by
  intro fuel
  induction fuel with
  | zero =>
    intro fH sH rolls res he
    exact Option.noConfusion he
  | succ n ih =>
    intro fH sH rolls res he p hp
    simp only [cannonLoopTr, alive_cond] at he
    by_cases hc : 0 < fH ∧ 0 < sH
    · rw [if_pos hc] at he
      split at he
      · exact Option.noConfusion he
      · next xo1 sH2 r2 t1 heq1 =>
        have ht1 : ∀ q ∈ t1, q = (flag, fH) :=
          fireTr_trace first flag fH second.shield first.cannons sH rolls
            (sH2, r2, t1) heq1
        by_cases hs2 : sH2 ≤ 0
        · rw [if_pos hs2] at he
          cases hfr : finalResult flag fH sH2 r2 with
          | none => rw [hfr] at he; exact Option.noConfusion he
          | some fr =>
            rw [hfr, Option.map_some'] at he
            obtain rfl := (Option.some.inj he).symm
            have := ht1 p hp
            rw [this]
            exact hc.1
        · rw [if_neg hs2] at he
          split at he
          · exact Option.noConfusion he
          · next xo2 fH2 r3 t2 heq2 =>
            have ht2 : ∀ q ∈ t2, q = (!flag, sH2) :=
              fireTr_trace second (!flag) sH2 first.shield second.cannons fH
                r2 (fH2, r3, t2) heq2
            cases hrec : cannonLoopTr first second flag n fH2 sH2 r3 with
            | none => rw [hrec] at he; exact Option.noConfusion he
            | some q3 =>
              rw [hrec, Option.map_some'] at he
              obtain rfl := (Option.some.inj he).symm
              simp only [List.append_assoc, List.mem_append] at hp
              rcases hp with hp1 | hp2 | hp3
              · rw [ht1 p hp1]
                exact hc.1
              · rw [ht2 p hp2]
                omega
              · exact ih fH2 sH2 r3 q3 hrec p hp3
    · rw [if_neg hc] at he
      cases hfr : finalResult flag fH sH rolls with
      | none => rw [hfr] at he; exact Option.noConfusion he
      | some fr =>
        rw [hfr, Option.map_some'] at he
        obtain rfl := (Option.some.inj he).symm
        simp at hp

/-- Every shot recorded from the second missile volley onwards is fired
with positive hull, provided the second-firing ship enters the phase
alive. -/
lemma missileSecondTr_trace {first second : Ship} {flag : Bool} {fuel : ℕ}
    {fH sH : Int} {rolls : List Roll} {res : Int × List Roll × List Shot}
    (hs : 0 < sH)
    (he : missileSecondTr first second flag fuel fH sH rolls = some res) :
    ∀ p ∈ res.2.2, 0 < p.2 := by
  intro p hp
  rw [missileSecondTr] at he
  by_cases hm : second.missiles ≠ []
  · rw [if_pos hm] at he
    split at he
    · exact Option.noConfusion he
    · next xo1 fH1 r1 t1 heq1 =>
      have ht1 : ∀ q ∈ t1, q = (!flag, sH) :=
        fireTr_trace second (!flag) sH first.shield second.missiles fH rolls
          (fH1, r1, t1) heq1
      by_cases hd : fH1 ≤ 0
      · rw [if_pos hd] at he
        obtain rfl := (Option.some.inj he).symm
        rw [ht1 p hp]
        exact hs
      · rw [if_neg hd] at he
        cases hrec : cannonLoopTr first second flag fuel fH1 sH r1 with
        | none => rw [hrec] at he; exact Option.noConfusion he
        | some q2 =>
          rw [hrec, Option.map_some'] at he
          obtain rfl := (Option.some.inj he).symm
          rcases List.mem_append.mp hp with hp1 | hp2
          · rw [ht1 p hp1]
            exact hs
          · exact cannonLoopTr_trace first second flag fuel fH1 sH r1 q2
              hrec p hp2
  · rw [if_neg hm] at he
    exact cannonLoopTr_trace first second flag fuel fH sH rolls res he p hp

/-- Every shot of a whole instrumented duel is fired with positive hull,
provided both ships start alive. -/
lemma duelPhasesTr_trace {first second : Ship} {flag : Bool} {fuel : ℕ}
    {rolls : List Roll} {res : Int × List Roll × List Shot}
    (hf : 0 < first.hull) (hs : 0 < second.hull)
    (he : duelPhasesTr first second flag fuel rolls = some res) :
    ∀ p ∈ res.2.2, 0 < p.2 := by
  intro p hp
  rw [duelPhasesTr] at he
  by_cases hm : first.missiles ≠ []
  · rw [if_pos hm] at he
    split at he
    · exact Option.noConfusion he
    · next xo1 sH1 r1 t1 heq1 =>
      have ht1 : ∀ q ∈ t1, q = (flag, first.hull) :=
        fireTr_trace first flag first.hull second.shield first.missiles
          second.hull rolls (sH1, r1, t1) heq1
      by_cases hd : sH1 ≤ 0
      · rw [if_pos hd] at he
        obtain rfl := (Option.some.inj he).symm
        rw [ht1 p hp]
        exact hf
      · rw [if_neg hd] at he
        cases hrec : missileSecondTr first second flag fuel first.hull sH1
            r1 with
        | none => rw [hrec] at he; exact Option.noConfusion he
        | some q2 =>
          rw [hrec, Option.map_some'] at he
          obtain rfl := (Option.some.inj he).symm
          rcases List.mem_append.mp hp with hp1 | hp2
          · rw [ht1 p hp1]
            exact hf
          · exact missileSecondTr_trace (by omega) hrec p hp2
  · rw [if_neg hm] at he
    exact missileSecondTr_trace hs he p hp

/-- C9 (amended).  Destroyed combatants stay silent for all specs whose
hulls start positive: within a trial, every shot is fired while the
firer's remaining hull is strictly positive, so once a combatant's hull
drops to `0` or below it draws no further roll and deals no further
damage.  (With a malformed spec whose hull is already `≤ 0` at setup the
combatant does fire, see the counterexample.) -/
theorem C9_destroyed_stay_silent :
    ∀ (a b : Ship) (fuel : ℕ) (rolls : List Roll),
      0 < a.hull → 0 < b.hull →
      ∀ p ∈ shotTrace (simulateOnceTr fuel a b rolls), 0 < p.2 := by
  intro a b fuel rolls ha hb p hp
  rw [shotTrace.eq_def] at hp
  rcases hres : simulateOnceTr fuel a b rolls with _ | res
  · rw [hres] at hp
    simp at hp
  · rw [hres] at hp
    rw [simulateOnceTr] at hres
    split_ifs at hres
    · exact duelPhasesTr_trace ha hb hres p hp
    · exact duelPhasesTr_trace hb ha hres p hp

/-- C9 (witness): in a concrete duel between two alive ships the recorded
shot `(true, 1)` was fired at positive hull. -/
theorem C9_destroyed_stay_silent_witness :
    (true, (1 : Int)) ∈ shotTrace (simulateOnceTr 2 shipA1 shipB1 [Roll.v5])
    ∧ 0 < ((true, (1 : Int)) : Shot).2 :=
  ⟨by decide, C9_destroyed_stay_silent shipA1 shipB1 2 [Roll.v5] (by decide)
    (by decide) (true, 1) (by decide)⟩

/-- C9 (counterexample).  As stated the claim fails: the resolver never
validates specs, and a combatant whose hull is already `≤ 0` at setup
does fire — here ship A, destroyed from the start (`hull = 0`), draws a
roll for its missile while destroyed. -/
theorem C9_counterexample :
    ¬ ∀ (a b : Ship) (fuel : ℕ) (rolls : List Roll),
        ∀ p ∈ shotTrace (simulateOnceTr fuel a b rolls), 0 < p.2 := by
  intro h
  have := h ⟨5, 0, 0, 0, [1], []⟩ ⟨4, 2, 0, 0, [], []⟩ 1 [Roll.noDamage]
    (true, 0) (by decide)
  exact absurd this (by decide)

/-- Swapping which ship is "a" in the final result block negates the
reported outcome, as long as at least one ship is destroyed (which is the
case whenever the block is reached). -/
lemma finalResult_neg (fH sH : Int) (rolls : List Roll)
    (h : fH ≤ 0 ∨ sH ≤ 0) :
    finalResult false fH sH rolls =
      (finalResult true fH sH rolls).map (fun p => (-p.1, p.2)) := by
  have e1 : finalResult false fH sH rolls =
      (if sH ≤ 0 ∧ fH ≤ 0 then some ((0 : Int), rolls)
       else if sH > 0 then some (1, rolls) else some (-1, rolls)) := rfl
  have e2 : finalResult true fH sH rolls =
      (if fH ≤ 0 ∧ sH ≤ 0 then some ((0 : Int), rolls)
       else if fH > 0 then some (1, rolls) else some (-1, rolls)) := rfl
  rw [e1, e2]
  by_cases hd : fH ≤ 0 ∧ sH ≤ 0
  · rw [if_pos (by omega : sH ≤ 0 ∧ fH ≤ 0), if_pos hd]
    simp
  · rw [if_neg (by omega : ¬(sH ≤ 0 ∧ fH ≤ 0)), if_neg hd]
    rcases h with h | h
    · rw [if_neg (by omega : ¬fH > 0), if_pos (by omega : sH > 0)]
      simp
    · rw [if_pos (by omega : fH > 0), if_neg (by omega : ¬sH > 0)]
      simp

/-- Flipping the order flag of the cannon loop negates the outcome and
changes nothing else: the flag only affects how the first/second result is
mapped back to a/b. -/
lemma cannonLoop_neg (first second : Ship) :
    ∀ (fuel : ℕ) (fH sH : Int) (rolls : List Roll),
      cannonLoop first second false fuel fH sH rolls =
        (cannonLoop first second true fuel fH sH rolls).map
          (fun p => (-p.1, p.2)) := by
  intro fuel
  induction fuel with
  | zero => intro fH sH rolls; rfl
  | succ n ih =>
    intro fH sH rolls
    simp only [cannonLoop, Bool.false_eq_true, eq_self_iff_true, if_true,
      if_false, ite_true, ite_false]
    by_cases hc : fH > 0 ∧ sH > 0
    · rw [if_pos (show sH > 0 ∧ fH > 0 by omega), if_pos hc]
      cases hf1 : first.fire second.shield first.cannons sH rolls with
      | none => rfl
      | some q1 =>
        obtain ⟨sH2, r2⟩ := q1
        simp only []
        by_cases hs2 : sH2 ≤ 0
        · rw [if_pos hs2, if_pos hs2]
          exact finalResult_neg fH sH2 r2 (Or.inr hs2)
        · rw [if_neg hs2, if_neg hs2]
          cases hf2 : second.fire first.shield second.cannons fH r2 with
          | none => rfl
          | some q2 =>
            obtain ⟨fH2, r3⟩ := q2
            simp only []
            exact ih fH2 sH2 r3
    · rw [if_neg (show ¬(sH > 0 ∧ fH > 0) by omega), if_neg hc]
      exact finalResult_neg fH sH rolls (by omega)

/-- Flipping the order flag of the second missile volley and everything
after it negates the outcome. -/
lemma missileSecond_neg (first second : Ship) (fuel : ℕ) (fH sH : Int)
    (rolls : List Roll) :
    missileSecond first second false fuel fH sH rolls =
      (missileSecond first second true fuel fH sH rolls).map
        (fun p => (-p.1, p.2)) := by
  simp only [missileSecond, Bool.false_eq_true, eq_self_iff_true, if_true,
    if_false, ite_true, ite_false]
  by_cases hm : second.missiles ≠ []
  · rw [if_pos hm, if_pos hm]
    cases hf1 : second.fire first.shield second.missiles fH rolls with
    | none => rfl
    | some q1 =>
      obtain ⟨fH1, r1⟩ := q1
      simp only []
      by_cases hd : fH1 ≤ 0
      · rw [if_pos hd, if_pos hd]
        simp
      · rw [if_neg hd, if_neg hd]
        exact cannonLoop_neg first second fuel fH1 sH r1
  · rw [if_neg hm, if_neg hm]
    exact cannonLoop_neg first second fuel fH sH rolls

/-- Flipping the order flag of a whole duel (same physical firing order)
negates the outcome. -/
lemma duelPhases_neg (first second : Ship) (fuel : ℕ) (rolls : List Roll) :
    duelPhases first second false fuel rolls =
      (duelPhases first second true fuel rolls).map (fun p => (-p.1, p.2)) := by
  simp only [duelPhases, Bool.false_eq_true, eq_self_iff_true, if_true,
    if_false, ite_true, ite_false]
  by_cases hm : first.missiles ≠ []
  · rw [if_pos hm, if_pos hm]
    cases hf1 : first.fire second.shield first.missiles second.hull rolls with
    | none => rfl
    | some q1 =>
      obtain ⟨sH1, r1⟩ := q1
      simp only []
      by_cases hd : sH1 ≤ 0
      · rw [if_pos hd, if_pos hd]
        simp
      · rw [if_neg hd, if_neg hd]
        exact missileSecond_neg first second fuel first.hull sH1 r1
  · rw [if_neg hm, if_neg hm]
    exact missileSecond_neg first second fuel first.hull second.hull rolls

/-- Calling `_simulate_once` with the two specs swapped (and distinct
initiatives) runs the same physical duel, consumes the same rolls, and
negates the outcome. -/
lemma simulateOnce_swap {a b : Ship} (hne : a.initiative ≠ b.initiative)
    (fuel : ℕ) (rolls : List Roll) :
    simulateOnce fuel b a rolls =
      (simulateOnce fuel a b rolls).map (fun p => (-p.1, p.2)) := by
  rw [simulateOnce, simulateOnce]
  by_cases hab : a.initiative > b.initiative
  · rw [if_pos hab, if_neg (by omega : ¬b.initiative > a.initiative)]
    exact duelPhases_neg a b fuel rolls
  · have hba : b.initiative > a.initiative := by omega
    rw [if_neg hab, if_pos hba]
    rw [duelPhases_neg b a fuel rolls, Option.map_map]
    have hid : ((fun p : Int × List Roll => (-p.1, p.2)) ∘
        fun p : Int × List Roll => (-p.1, p.2)) = id := by
      funext p
      simp
    rw [hid, Option.map_id]
    rfl

/-- Swapping the specs in the trial loop turns the win counter into the
loss counter: with distinct initiatives and positive hulls every trial is
decided (no draws), so the swapped run wins exactly the complementary
trials and consumes the same rolls. -/
lemma runTrials_swap {a b : Ship} (hne : a.initiative ≠ b.initiative)
    (ha : 0 < a.hull) (hb : 0 < b.hull) (fuel : ℕ) :
    ∀ (k : ℕ) (rolls : List Roll) (w : ℕ) (r : List Roll),
      runTrials a b fuel k rolls = some (w, r) →
      w ≤ k ∧ runTrials b a fuel k rolls = some (k - w, r) := by
  intro k
  induction k with
  | zero =>
    intro rolls w r he
    simp only [runTrials, Option.some.injEq, Prod.mk.injEq] at he
    obtain ⟨rfl, rfl⟩ := he
    exact ⟨le_refl 0, rfl⟩
  | succ n ih =>
    intro rolls w r he
    simp only [runTrials] at he
    cases hs : simulateOnce fuel a b rolls with
    | none =>
      simp only [hs] at he
      exact Option.noConfusion he
    | some q =>
      obtain ⟨o, r1⟩ := q
      simp only [hs] at he
      cases ht : runTrials a b fuel n r1 with
      | none =>
        simp only [ht] at he
        exact Option.noConfusion he
      | some q2 =>
        obtain ⟨w', r2⟩ := q2
        simp only [ht, Option.some.injEq, Prod.mk.injEq] at he
        obtain ⟨hw, hr⟩ := he
        have hsw := simulateOnce_swap hne fuel rolls
        rw [hs, Option.map_some'] at hsw
        obtain ⟨hw'le, hab⟩ := ih r1 w' r2 ht
        rcases simulateOnce_no_draw ha hb hs with ho | ho <;> subst ho <;>
          norm_num at hw hsw
        · refine ⟨by omega, ?_⟩
          simp only [runTrials, hsw, hab]
          norm_num
          exact ⟨by omega, hr⟩
        · refine ⟨by omega, ?_⟩
          simp only [runTrials, hsw, hab]
          norm_num
          exact ⟨by omega, hr⟩

/-- C6.  Role-swap symmetry: for valid specs (positive hulls) with
distinct initiatives, a positive trial count, and a fixed seed, running
`win_probability` with the roles swapped consumes the same roll stream
and returns exactly the complementary probability, so the two results sum
to `1`. -/
theorem C6_role_swap_symmetry :
    ∀ (rng : Int → List Roll) (st1 st2 : List Roll) (s : Int) (a b : Ship)
      (sims : Int) (fuel : ℕ) (p : ℚ),
      a.initiative ≠ b.initiative → 0 < a.hull → 0 < b.hull → 0 < sims →
      winProbabilitySeeded rng st1 (some s) a b sims fuel =
        some (RunResult.value p) →
      winProbabilitySeeded rng st2 (some s) b a sims fuel =
        some (RunResult.value (1 - p)) := by
  intro rng st1 st2 s a b sims fuel p hne ha hb hpos hrun
  simp only [winProbabilitySeeded] at hrun ⊢
  rw [winProbability] at hrun ⊢
  cases hrt : runTrials a b fuel sims.toNat (rng s) with
  | none =>
    simp only [hrt] at hrun
    exact Option.noConfusion hrun
  | some q =>
    obtain ⟨w, rem⟩ := q
    simp only [hrt, if_neg (by omega : ¬sims = 0), Option.some.injEq] at hrun
    have hp : ((w : ℚ) / (sims : ℚ)) = p := by
      cases hrun
      rfl
    obtain ⟨hwle, hswap⟩ :=
      runTrials_swap hne ha hb fuel sims.toNat (rng s) w rem hrt
    simp only [hswap, if_neg (by omega : ¬sims = 0), Option.some.injEq]
    have hs0 : (sims : ℚ) ≠ 0 := Int.cast_ne_zero.mpr (by omega)
    have hn : ((sims.toNat : ℕ) : ℚ) = (sims : ℚ) := by
      have := Int.toNat_of_nonneg (by omega : (0 : Int) ≤ sims)
      exact_mod_cast congrArg (fun z : Int => (z : ℚ)) this
    have hcast : ((sims.toNat - w : ℕ) : ℚ) = (sims : ℚ) - (w : ℚ) := by
      rw [Nat.cast_sub hwle, hn]
    have hval : ((sims.toNat - w : ℕ) : ℚ) / (sims : ℚ) = 1 - p := by
      rw [hcast, ← hp]
      field_simp
    rw [hval]

/-- C6 (witness): concrete sudden-death duel, one trial, seed supplied;
the swapped call returns `1 - 1 = 0`. -/
theorem C6_role_swap_symmetry_witness :
    winProbabilitySeeded (fun _ => [Roll.v5]) [] (some 0) shipB1 shipA1 1 2 =
      some (RunResult.value (1 - 1)) := by
  refine C6_role_swap_symmetry (fun _ => [Roll.v5]) [] [] 0 shipA1 shipB1 1 2
    1 (by decide) (by decide) (by decide) (by norm_num) ?_
  have h : runTrials shipA1 shipB1 2 (Int.toNat 1) [Roll.v5] =
      some (1, []) := by decide
  simp only [winProbabilitySeeded]
  rw [winProbability, h]
  norm_num

/-- The plain `_fire` on translated rolls is the pure-Python
`_fire_sequence_py` on the raw index stream, with the leftover stream
translated: both versions consume one draw per weapon entry, stop the
volley on destruction, and decide hits identically. -/
lemma fire_eq_fireSeqPy (s : Ship) (tS : Int) :
    ∀ (w : List Int) (hp : Int) (idxs : List (Fin 6)),
      s.fire tS w hp (idxs.map rollOfFin) =
        (fireSeqPy w s.computer tS hp idxs).map
          (fun p => (p.1, p.2.map rollOfFin)) := by
  intro w
  induction w with
  | nil => intro hp idxs; rfl
  | cons dmg rest ih =>
    intro hp idxs
    cases idxs with
    | nil => rfl
    | cons r rs =>
      simp only [List.map_cons, Ship.fire, fireSeqPy]
      rw [rollHitPy_eq_hit]
      by_cases hh : s.hit (rollOfFin r) tS
      · rw [if_pos hh, if_pos hh]
        by_cases hd : hp - dmg ≤ 0
        · rw [if_pos hd, if_pos hd]
          rfl
        · rw [if_neg hd, if_neg hd]
          exact ih (hp - dmg) rs
      · rw [if_neg hh, if_neg hh]
        exact ih hp rs

/-- Final block, first alive and second destroyed: first wins. -/
lemma finalResult_win1 {fH sH : Int} (rolls : List Roll) (hf : 0 < fH)
    (hs : sH ≤ 0) : finalResult true fH sH rolls = some (1, rolls) := by
  have e : finalResult true fH sH rolls =
      (if fH ≤ 0 ∧ sH ≤ 0 then some ((0 : Int), rolls)
       else if fH > 0 then some (1, rolls) else some (-1, rolls)) := rfl
  rw [e, if_neg (by omega), if_pos (by omega)]

/-- Final block, first destroyed and second alive: second wins. -/
lemma finalResult_win2 {fH sH : Int} (rolls : List Roll) (hf : fH ≤ 0)
    (hs : 0 < sH) : finalResult true fH sH rolls = some (-1, rolls) := by
  have e : finalResult true fH sH rolls =
      (if fH ≤ 0 ∧ sH ≤ 0 then some ((0 : Int), rolls)
       else if fH > 0 then some (1, rolls) else some (-1, rolls)) := rfl
  rw [e, if_neg (by omega), if_neg (by omega)]

/-- With at least one ship down the cannon loop exits immediately to the
final result block. -/
lemma cannonLoop_exit (first second : Ship) (flag : Bool) (g : ℕ)
    (fH sH : Int) (rolls : List Roll) (h : ¬(0 < fH ∧ 0 < sH)) :
    cannonLoop first second flag (g + 1) fH sH rolls =
      finalResult flag fH sH rolls := by
  simp only [cannonLoop, alive_cond]
  rw [if_neg h]

/-- Pure-Python cannon loop to plain cannon loop, A firing first: any
finished fallback loop is reproduced by the plain loop with one extra
fuel unit, with winner `true ↦ 1`, `false ↦ -1` and the same rolls
consumed. -/
lemma loopPy_to_plain (a b : Ship) :
    ∀ (fuel : ℕ) (aH bH : Int) (idxs : List (Fin 6))
      (res : Bool × List (Fin 6)), 0 < aH → 0 < bH →
      cannonLoopPy a b true fuel aH bH idxs = some res →
      cannonLoop a b true (fuel + 1) aH bH (idxs.map rollOfFin) =
        some ((if res.1 then 1 else -1), res.2.map rollOfFin) := by
  intro fuel
  induction fuel with
  | zero =>
    intro aH bH idxs res ha hb he
    exact Option.noConfusion he
  | succ n ih =>
    intro aH bH idxs res ha hb he
    simp only [cannonLoopPy, eq_self_iff_true, if_true, ite_true] at he
    have eL : cannonLoop a b true (n + 1 + 1) aH bH (idxs.map rollOfFin) =
        (if aH > 0 ∧ bH > 0 then
          match a.fire b.shield a.cannons bH (idxs.map rollOfFin) with
          | none => none
          | some (sH2, r2) =>
            if sH2 ≤ 0 then finalResult true aH sH2 r2
            else
              match b.fire a.shield b.cannons aH r2 with
              | none => none
              | some (fH2, r3) => cannonLoop a b true (n + 1) fH2 sH2 r3
        else finalResult true aH bH (idxs.map rollOfFin)) := rfl
    rw [eL, if_pos ⟨ha, hb⟩]
    rw [fire_eq_fireSeqPy a b.shield a.cannons bH idxs]
    cases hf1 : fireSeqPy a.cannons a.computer b.shield bH idxs with
    | none =>
      simp only [hf1] at he
      exact Option.noConfusion he
    | some q1 =>
      obtain ⟨bH1, r1⟩ := q1
      simp only [hf1] at he
      simp only [Option.map_some']
      by_cases hd1 : bH1 ≤ 0
      · rw [if_pos hd1] at he
        obtain rfl := (Option.some.inj he).symm
        rw [if_pos hd1, finalResult_win1 _ ha hd1]
        simp
      · rw [if_neg hd1] at he
        rw [if_neg hd1]
        rw [fire_eq_fireSeqPy b a.shield b.cannons aH r1]
        cases hf2 : fireSeqPy b.cannons b.computer a.shield aH r1 with
        | none =>
          simp only [hf2] at he
          exact Option.noConfusion he
        | some q2 =>
          obtain ⟨aH1, r2⟩ := q2
          simp only [hf2] at he
          simp only [Option.map_some']
          by_cases hd2 : aH1 ≤ 0
          · rw [if_pos hd2] at he
            obtain rfl := (Option.some.inj he).symm
            rw [cannonLoop_exit a b true n aH1 bH1 _ (by omega),
              finalResult_win2 _ hd2 (by omega)]
            simp
          · rw [if_neg hd2] at he
            exact ih aH1 bH1 r2 res (by omega) (by omega) he

/-- Plain cannon loop to pure-Python cannon loop, A firing first: any
finished plain loop is reproduced by the fallback loop with the same fuel,
same winner correspondence, same rolls consumed. -/
lemma loopPlain_to_py (a b : Ship) :
    ∀ (fuel : ℕ) (aH bH : Int) (idxs : List (Fin 6)) (o : Int)
      (rr : List Roll), 0 < aH → 0 < bH →
      cannonLoop a b true fuel aH bH (idxs.map rollOfFin) = some (o, rr) →
      ∃ w rs, cannonLoopPy a b true fuel aH bH idxs = some (w, rs) ∧
        o = (if w then 1 else -1) ∧ rr = rs.map rollOfFin := by
  intro fuel
  induction fuel with
  | zero =>
    intro aH bH idxs o rr ha hb he
    exact Option.noConfusion he
  | succ n ih =>
    intro aH bH idxs o rr ha hb he
    simp only [cannonLoop, eq_self_iff_true, if_true, ite_true] at he
    rw [if_pos ⟨ha, hb⟩] at he
    rw [fire_eq_fireSeqPy a b.shield a.cannons bH idxs] at he
    cases hf1 : fireSeqPy a.cannons a.computer b.shield bH idxs with
    | none =>
      simp only [hf1] at he
      exact Option.noConfusion he
    | some q1 =>
      obtain ⟨bH1, r1⟩ := q1
      simp only [hf1, Option.map_some'] at he
      by_cases hd1 : bH1 ≤ 0
      · rw [if_pos hd1, finalResult_win1 _ ha hd1] at he
        obtain ⟨ho, hrr⟩ := Prod.mk.injEq .. |>.mp (Option.some.inj he)
        refine ⟨true, r1, ?_, by rw [if_pos rfl]; omega, hrr.symm⟩
        simp only [cannonLoopPy, eq_self_iff_true, if_true, ite_true]
        simp only [hf1]
        rw [if_pos hd1]
      · rw [if_neg hd1] at he
        rw [fire_eq_fireSeqPy b a.shield b.cannons aH r1] at he
        cases hf2 : fireSeqPy b.cannons b.computer a.shield aH r1 with
        | none =>
          simp only [hf2] at he
          exact Option.noConfusion he
        | some q2 =>
          obtain ⟨aH1, r2⟩ := q2
          simp only [hf2, Option.map_some'] at he
          by_cases hd2 : aH1 ≤ 0
          · cases n with
            | zero => exact Option.noConfusion he
            | succ m =>
              rw [cannonLoop_exit a b true m aH1 bH1 _ (by omega),
                finalResult_win2 _ hd2 (by omega)] at he
              obtain ⟨ho, hrr⟩ := Prod.mk.injEq .. |>.mp (Option.some.inj he)
              refine ⟨false, r2, ?_, by rw [if_neg Bool.false_ne_true]; omega,
                hrr.symm⟩
              simp only [cannonLoopPy, eq_self_iff_true, if_true, ite_true]
              simp only [hf1]
              rw [if_neg hd1]
              simp only [hf2]
              rw [if_pos hd2]
          · obtain ⟨w, rs, hpy, ho, hrr⟩ :=
              ih aH1 bH1 r2 o rr (by omega) (by omega) he
            refine ⟨w, rs, ?_, ho, hrr⟩
            simp only [cannonLoopPy, eq_self_iff_true, if_true, ite_true]
            simp only [hf1]
            rw [if_neg hd1]
            simp only [hf2]
            rw [if_neg hd2]
            exact hpy

/-- Second missile volley and onwards, fallback to plain, A first: the
fallback's inline phase-2 code is reproduced by `missileSecond` with one
extra fuel unit. -/
lemma msPy_to_plain (x y : Ship) (fuel : ℕ) (bH1 : Int)
    (r1 : List (Fin 6)) (res : Bool × List (Fin 6)) (hx : 0 < x.hull)
    (hb1 : 0 < bH1)
    (he : (match fireSeqPy y.missiles y.computer x.shield x.hull r1 with
           | none => none
           | some (aHp1, r2) =>
             if aHp1 ≤ 0 then some (false, r2)
             else cannonLoopPy x y true fuel aHp1 bH1 r2) = some res) :
    missileSecond x y true (fuel + 1) x.hull bH1 (r1.map rollOfFin) =
      some ((if res.1 then 1 else -1), res.2.map rollOfFin) := by
  rw [missileSecond]
  by_cases hm2 : y.missiles ≠ []
  · rw [if_pos hm2]
    rw [fire_eq_fireSeqPy y x.shield y.missiles x.hull r1]
    cases hf2 : fireSeqPy y.missiles y.computer x.shield x.hull r1 with
    | none =>
      simp only [hf2] at he
      exact Option.noConfusion he
    | some q2 =>
      obtain ⟨aH1, r2⟩ := q2
      simp only [hf2] at he
      simp only [Option.map_some']
      by_cases hd2 : aH1 ≤ 0
      · rw [if_pos hd2] at he
        obtain rfl := (Option.some.inj he).symm
        rw [if_pos hd2]
        simp
      · rw [if_neg hd2] at he
        rw [if_neg hd2]
        exact loopPy_to_plain x y fuel aH1 bH1 r2 res (by omega) hb1 he
  · rw [if_neg hm2]
    rw [not_not] at hm2
    rw [hm2] at he
    simp only [fireSeqPy] at he
    rw [if_neg (by omega : ¬x.hull ≤ 0)] at he
    exact loopPy_to_plain x y fuel x.hull bH1 r1 res hx hb1 he

/-- Whole-duel fallback to plain, A first. -/
lemma phasesPy_to_plain (x y : Ship) (fuel : ℕ) (idxs : List (Fin 6))
    (res : Bool × List (Fin 6)) (hx : 0 < x.hull) (hy : 0 < y.hull)
    (he : battlePhasesPy x y true fuel idxs = some res) :
    duelPhases x y true (fuel + 1) (idxs.map rollOfFin) =
      some ((if res.1 then 1 else -1), res.2.map rollOfFin) := by
  simp only [battlePhasesPy, eq_self_iff_true, if_true, ite_true] at he
  rw [duelPhases]
  by_cases hm1 : x.missiles ≠ []
  · rw [if_pos hm1]
    rw [fire_eq_fireSeqPy x y.shield x.missiles y.hull idxs]
    cases hf1 : fireSeqPy x.missiles x.computer y.shield y.hull idxs with
    | none =>
      simp only [hf1] at he
      exact Option.noConfusion he
    | some q1 =>
      obtain ⟨bH1, r1⟩ := q1
      simp only [hf1] at he
      simp only [Option.map_some']
      by_cases hd1 : bH1 ≤ 0
      · rw [if_pos hd1] at he
        obtain rfl := (Option.some.inj he).symm
        rw [if_pos hd1]
        simp
      · rw [if_neg hd1] at he
        rw [if_neg hd1]
        exact msPy_to_plain x y fuel bH1 r1 res hx (by omega) he
  · rw [if_neg hm1]
    rw [not_not] at hm1
    rw [hm1] at he
    simp only [fireSeqPy] at he
    rw [if_neg (by omega : ¬y.hull ≤ 0)] at he
    exact msPy_to_plain x y fuel y.hull idxs res hx hy he

/-- Second missile volley and onwards, plain to fallback, A first. -/
lemma msPlain_to_py (x y : Ship) (fuel : ℕ) (bH1 : Int)
    (r1 : List (Fin 6)) (o : Int) (rr : List Roll) (hx : 0 < x.hull)
    (hb1 : 0 < bH1)
    (he : missileSecond x y true fuel x.hull bH1 (r1.map rollOfFin) =
      some (o, rr)) :
    ∃ w rs, (match fireSeqPy y.missiles y.computer x.shield x.hull r1 with
             | none => none
             | some (aHp1, r2) =>
               if aHp1 ≤ 0 then some (false, r2)
               else cannonLoopPy x y true fuel aHp1 bH1 r2) = some (w, rs) ∧
      o = (if w then 1 else -1) ∧ rr = rs.map rollOfFin := by
  rw [missileSecond] at he
  by_cases hm2 : y.missiles ≠ []
  · rw [if_pos hm2] at he
    rw [fire_eq_fireSeqPy y x.shield y.missiles x.hull r1] at he
    cases hf2 : fireSeqPy y.missiles y.computer x.shield x.hull r1 with
    | none =>
      simp only [hf2, Option.map_none'] at he
      exact Option.noConfusion he
    | some q2 =>
      obtain ⟨aH1, r2⟩ := q2
      simp only [hf2, Option.map_some'] at he
      simp only [hf2]
      by_cases hd2 : aH1 ≤ 0
      · rw [if_pos hd2] at he
        obtain ⟨ho, hrr⟩ := Prod.mk.injEq .. |>.mp (Option.some.inj he)
        simp only [if_true] at ho
        exact ⟨false, r2, by rw [if_pos hd2],
          by rw [if_neg Bool.false_ne_true]; omega, hrr.symm⟩
      · rw [if_neg hd2] at he
        obtain ⟨w, rs, hpy, ho, hrr⟩ :=
          loopPlain_to_py x y fuel aH1 bH1 r2 o rr (by omega) hb1 he
        exact ⟨w, rs, by rw [if_neg hd2]; exact hpy, ho, hrr⟩
  · rw [if_neg hm2] at he
    rw [not_not] at hm2
    rw [hm2]
    simp only [fireSeqPy]
    rw [if_neg (by omega : ¬x.hull ≤ 0)]
    exact loopPlain_to_py x y fuel x.hull bH1 r1 o rr hx hb1 he

/-- Whole-duel plain to fallback, A first. -/
lemma phasesPlain_to_py (x y : Ship) (fuel : ℕ) (idxs : List (Fin 6))
    (o : Int) (rr : List Roll) (hx : 0 < x.hull) (hy : 0 < y.hull)
    (he : duelPhases x y true fuel (idxs.map rollOfFin) = some (o, rr)) :
    ∃ w rs, battlePhasesPy x y true fuel idxs = some (w, rs) ∧
      o = (if w then 1 else -1) ∧ rr = rs.map rollOfFin := by
  simp only [battlePhasesPy, eq_self_iff_true, if_true, ite_true]
  rw [duelPhases] at he
  by_cases hm1 : x.missiles ≠ []
  · rw [if_pos hm1] at he
    rw [fire_eq_fireSeqPy x y.shield x.missiles y.hull idxs] at he
    cases hf1 : fireSeqPy x.missiles x.computer y.shield y.hull idxs with
    | none =>
      simp only [hf1, Option.map_none'] at he
      exact Option.noConfusion he
    | some q1 =>
      obtain ⟨bH1, r1⟩ := q1
      simp only [hf1, Option.map_some'] at he
      simp only [hf1]
      by_cases hd1 : bH1 ≤ 0
      · rw [if_pos hd1] at he
        obtain ⟨ho, hrr⟩ := Prod.mk.injEq .. |>.mp (Option.some.inj he)
        simp only [if_true] at ho
        exact ⟨true, r1, by rw [if_pos hd1], by rw [if_pos rfl]; omega,
          hrr.symm⟩
      · rw [if_neg hd1] at he
        obtain ⟨w, rs, hpy, ho, hrr⟩ :=
          msPlain_to_py x y fuel bH1 r1 o rr hx (by omega) he
        exact ⟨w, rs, by rw [if_neg hd1]; exact hpy, ho, hrr⟩
  · rw [if_neg hm1] at he
    rw [not_not] at hm1
    rw [hm1]
    simp only [fireSeqPy]
    rw [if_neg (by omega : ¬y.hull ≤ 0)]
    exact msPlain_to_py x y fuel y.hull idxs o rr hx hy he

/-- The fallback's B-first cannon loop is its A-first loop with the two
specs and hull counters exchanged and the winner flag negated (the two
branches of the source are mirror images). -/
lemma cannonLoopPy_swap (a b : Ship) :
    ∀ (fuel : ℕ) (aH bH : Int) (idxs : List (Fin 6)),
      cannonLoopPy a b false fuel aH bH idxs =
        (cannonLoopPy b a true fuel bH aH idxs).map (fun p => (!p.1, p.2)) := by
  intro fuel
  induction fuel with
  | zero => intro aH bH idxs; rfl
  | succ n ih =>
    intro aH bH idxs
    simp only [cannonLoopPy, Bool.false_eq_true, eq_self_iff_true, if_true,
      if_false, ite_true, ite_false]
    cases hf1 : fireSeqPy b.cannons b.computer a.shield aH idxs with
    | none => rfl
    | some q1 =>
      obtain ⟨aH1, r1⟩ := q1
      simp only []
      by_cases hd1 : aH1 ≤ 0
      · rw [if_pos hd1, if_pos hd1]
        rfl
      · rw [if_neg hd1, if_neg hd1]
        cases hf2 : fireSeqPy a.cannons a.computer b.shield bH r1 with
        | none => rfl
        | some q2 =>
          obtain ⟨bH1, r2⟩ := q2
          simp only []
          by_cases hd2 : bH1 ≤ 0
          · rw [if_pos hd2, if_pos hd2]
            rfl
          · rw [if_neg hd2, if_neg hd2]
            exact ih aH1 bH1 r2

/-- The fallback's B-first whole duel is its A-first duel with the specs
exchanged and the winner flag negated. -/
lemma battlePhasesPy_swap (a b : Ship) (fuel : ℕ) (idxs : List (Fin 6)) :
    battlePhasesPy a b false fuel idxs =
      (battlePhasesPy b a true fuel idxs).map (fun p => (!p.1, p.2)) := by
  simp only [battlePhasesPy, Bool.false_eq_true, eq_self_iff_true, if_true,
    if_false, ite_true, ite_false]
  cases hf1 : fireSeqPy b.missiles b.computer a.shield a.hull idxs with
  | none => rfl
  | some q1 =>
    obtain ⟨aH1, r1⟩ := q1
    simp only []
    by_cases hd1 : aH1 ≤ 0
    · rw [if_pos hd1, if_pos hd1]
      rfl
    · rw [if_neg hd1, if_neg hd1]
      cases hf2 : fireSeqPy a.missiles a.computer b.shield b.hull r1 with
      | none => rfl
      | some q2 =>
        obtain ⟨bH1, r2⟩ := q2
        simp only []
        by_cases hd2 : bH1 ≤ 0
        · rw [if_pos hd2, if_pos hd2]
          rfl
        · rw [if_neg hd2, if_neg hd2]
          exact cannonLoopPy_swap a b fuel aH1 bH1 r2

/-- Inverting a winner-flag-negating map on an `Option`al result. -/
lemma map_bnot_inv {α : Type} {x : Option (Bool × α)} {res : Bool × α}
    (h : x.map (fun p => (!p.1, p.2)) = some res) :
    x = some (!res.1, res.2) := by
  cases x with
  | none => exact Option.noConfusion h
  | some p =>
    rw [Option.map_some'] at h
    obtain rfl := Option.some.inj h
    cases p with
    | mk w rs => simp

/-- Inverting an outcome-negating map on an `Option`al result. -/
lemma map_neg_inv {x : Option (Int × List Roll)} {o : Int} {rr : List Roll}
    (h : x.map (fun p => (-p.1, p.2)) = some (o, rr)) : x = some (-o, rr) := by
  cases x with
  | none => exact Option.noConfusion h
  | some p =>
    rw [Option.map_some'] at h
    obtain ⟨ho, hrr⟩ := Prod.mk.injEq .. |>.mp (Option.some.inj h)
    cases p with
    | mk q rs =>
      simp only at ho hrr
      rw [← ho, ← hrr]
      simp

/-- C3 (amended).  For every pair of specs with positive hulls and every
raw roll-index sequence consumed in order, the plain resolver and the
pure-Python fallback declare the same winner (`1 ↔ True`, `-1 ↔ False`)
and consume exactly the same rolls.  The only caveat forced by the
unbounded cannon loop is fuel accounting: a fallback run is reproduced by
the plain resolver with one extra loop iteration allowed, and any plain
run is reproduced by the fallback with the same allowance.  (For
malformed specs with non-positive hulls the two resolvers genuinely
disagree — see the counterexample.) -/
theorem C3_plain_fallback_equivalence :
    ∀ (a b : Ship) (idxs : List (Fin 6)) (fuel : ℕ),
      0 < a.hull → 0 < b.hull →
      (∀ res, battleOncePy fuel a b idxs = some res →
        simulateOnce (fuel + 1) a b (idxs.map rollOfFin) =
          some ((if res.1 then 1 else -1), res.2.map rollOfFin))
      ∧ (∀ o rr, simulateOnce fuel a b (idxs.map rollOfFin) = some (o, rr) →
        ∃ w rs, battleOncePy fuel a b idxs = some (w, rs) ∧
          o = (if w then 1 else -1) ∧ rr = rs.map rollOfFin) := by
  intro a b idxs fuel ha hb
  by_cases hab : a.initiative > b.initiative
  · constructor
    · intro res he
      rw [battleOncePy, decide_eq_true hab] at he
      rw [simulateOnce, if_pos hab]
      exact phasesPy_to_plain a b fuel idxs res ha hb he
    · intro o rr he
      rw [simulateOnce, if_pos hab] at he
      obtain ⟨w, rs, hpy, ho, hrr⟩ :=
        phasesPlain_to_py a b fuel idxs o rr ha hb he
      exact ⟨w, rs, by rw [battleOncePy, decide_eq_true hab]; exact hpy,
        ho, hrr⟩
  · constructor
    · intro res he
      rw [battleOncePy, decide_eq_false hab, battlePhasesPy_swap] at he
      have hY := map_bnot_inv he
      have h2 := phasesPy_to_plain b a fuel idxs (!res.1, res.2) hb ha hY
      rw [simulateOnce, if_neg hab, duelPhases_neg b a (fuel + 1)
        (idxs.map rollOfFin), h2]
      obtain ⟨w, rs⟩ := res
      cases w <;> simp
    · intro o rr he
      rw [simulateOnce, if_neg hab,
        duelPhases_neg b a fuel (idxs.map rollOfFin)] at he
      have hY := map_neg_inv he
      obtain ⟨w, rs, hpy, ho, hrr⟩ :=
        phasesPlain_to_py b a fuel idxs (-o) rr hb ha hY
      refine ⟨!w, rs, ?_, ?_, hrr⟩
      · rw [battleOncePy, decide_eq_false hab, battlePhasesPy_swap, hpy]
        rfl
      · cases w with
        | false =>
          simp only [Bool.false_eq_true, if_false, ite_false] at ho
          simp only [Bool.not_false, if_true, eq_self_iff_true, ite_true]
          omega
        | true =>
          simp only [if_true, eq_self_iff_true, ite_true] at ho
          simp only [Bool.not_true, Bool.false_eq_true, if_false, ite_false]
          omega

/-- C3 (counterexample).  As literally stated — "for every pair of
combatant specs" — the equivalence is false: with both hulls already `0`
(never validated), the plain resolver reports a draw (`0`, neither `1`
nor `-1`) while the fallback declares A the winner. -/
theorem C3_counterexample :
    battleOncePy 1 zShip zShipB [] = some (true, [])
    ∧ simulateOnce 1 zShip zShipB [] = some (0, []) := by
  exact ⟨by decide, by decide⟩

/-- C3 (witness for the amended theorem): a concrete one-shot duel where
the fallback's A-win is reproduced by the plain resolver. -/
theorem C3_plain_fallback_equivalence_witness :
    simulateOnce 2 shipA1 shipB1 ([(4 : Fin 6)].map rollOfFin) =
      some ((if true then 1 else -1), ([] : List (Fin 6)).map rollOfFin) :=
  (C3_plain_fallback_equivalence shipA1 shipB1 [4] 1 (by decide)
    (by decide)).1 (true, []) (by decide)

/-- A tie-initiative pair used to witness C10. -/
def tieA : Ship := ⟨3, 1, 0, 0, [], [1]⟩

/-- Its opponent with the same initiative. -/
def tieB : Ship := ⟨3, 2, 0, 0, [], [1]⟩

/-- C10.  Initiative tie-break: with exactly equal initiative the strict
comparison `a.initiative > b.initiative` is false, so in all three
resolvers the whole duel is deterministically run with the second-named
combatant (B) in the first-firing role. -/
theorem C10_initiative_tie :
    ∀ (a b : Ship) (fuel : ℕ) (rollsR : List Roll)
      (rollsI : List (Fin 6)),
      a.initiative = b.initiative →
      simulateOnce fuel a b rollsR = duelPhases b a false fuel rollsR
      ∧ battleOncePy fuel a b rollsI = battlePhasesPy a b false fuel rollsI
      ∧ battleOnceJit fuel a b rollsI = battlePhasesJit a b false fuel rollsI := by
  intro a b fuel rollsR rollsI h
  have hng : ¬ a.initiative > b.initiative := by omega
  refine ⟨?_, ?_, ?_⟩
  · rw [simulateOnce, if_neg hng]
  · rw [battleOncePy, decide_eq_false hng]
  · rw [battleOnceJit, decide_eq_false hng]

/-- C10 (witness): at a concrete equal-initiative pair the three resolvers
are runs with B designated first. -/
theorem C10_initiative_tie_witness :
    simulateOnce 1 tieA tieB [] = duelPhases tieB tieA false 1 []
    ∧ battleOncePy 1 tieA tieB [] = battlePhasesPy tieA tieB false 1 []
    ∧ battleOnceJit 1 tieA tieB [] = battlePhasesJit tieA tieB false 1 [] :=
  C10_initiative_tie tieA tieB 1 [] [] rfl

/-- One-step evaluation equation of the cannon loop (unfolds exactly one
iteration). -/
lemma cannonLoop_succ_eval (first second : Ship) (flag : Bool) (g : ℕ)
    (fH sH : Int) (rolls : List Roll) :
    cannonLoop first second flag (g + 1) fH sH rolls =
      (if (if flag then fH else sH) > 0 ∧ (if flag then sH else fH) > 0 then
        match first.fire second.shield first.cannons sH rolls with
        | none => none
        | some (sH2, r2) =>
          if sH2 ≤ 0 then finalResult flag fH sH2 r2
          else
            match second.fire first.shield second.cannons fH r2 with
            | none => none
            | some (fH2, r3) => cannonLoop first second flag g fH2 sH2 r3
      else finalResult flag fH sH rolls) := rfl

/-- A Boolean that is not `true` is `false`. -/
lemma hit_false_of_not_true {s : Ship} {r : Roll} {tS : Int}
    (h : ¬s.hit r tS = true) : s.hit r tS = false := by
  cases hx : s.hit r tS with
  | false => rfl
  | true => exact absurd hx h

/-- In the sudden-death scenario the whole duel is just the cannon loop on
hulls `1` and `1`. -/
lemma sim_eq_loopC (f : ℕ) (rolls : List Roll) :
    simulateOnce f shipA1 shipB1 rolls =
      cannonLoop shipA1 shipB1 true f 1 1 rolls := rfl

/-- A's single 1-damage cannon volley on a hit: B's hull drops to 0. -/
lemma fireA_hit (rolls : List Roll) (r : Roll) (h : shipA1.hit r 1 = true) :
    shipA1.fire shipB1.shield shipA1.cannons 1 (r :: rolls) =
      some (0, rolls) := by
  show shipA1.fire 1 [1] 1 (r :: rolls) = some (0, rolls)
  simp only [Ship.fire, h, if_true, eq_self_iff_true, ite_true]
  norm_num

/-- A's volley on a miss: B's hull unchanged, one roll consumed. -/
lemma fireA_miss (rolls : List Roll) (r : Roll)
    (h : shipA1.hit r 1 = false) :
    shipA1.fire shipB1.shield shipA1.cannons 1 (r :: rolls) =
      some (1, rolls) := by
  show shipA1.fire 1 [1] 1 (r :: rolls) = some (1, rolls)
  simp only [Ship.fire, h, Bool.false_eq_true, if_false, ite_false]

/-- B's single 1-damage cannon volley on a hit: A's hull drops to 0. -/
lemma fireB_hit (rolls : List Roll) (r : Roll) (h : shipB1.hit r 1 = true) :
    shipB1.fire shipA1.shield shipB1.cannons 1 (r :: rolls) =
      some (0, rolls) := by
  show shipB1.fire 1 [1] 1 (r :: rolls) = some (0, rolls)
  simp only [Ship.fire, h, if_true, eq_self_iff_true, ite_true]
  norm_num

/-- B's volley on a miss: A's hull unchanged, one roll consumed. -/
lemma fireB_miss (rolls : List Roll) (r : Roll)
    (h : shipB1.hit r 1 = false) :
    shipB1.fire shipA1.shield shipB1.cannons 1 (r :: rolls) =
      some (1, rolls) := by
  show shipB1.fire 1 [1] 1 (r :: rolls) = some (1, rolls)
  simp only [Ship.fire, h, Bool.false_eq_true, if_false, ite_false]

/-- Sudden-death round, A hits: A wins at once, one roll consumed. -/
lemma loopC_stepHit (f : ℕ) (rolls : List Roll) (r : Roll)
    (h : shipA1.hit r 1 = true) :
    cannonLoop shipA1 shipB1 true (f + 1) 1 1 (r :: rolls) =
      some (1, rolls) := by
  rw [cannonLoop_succ_eval, if_pos (by decide)]
  rw [fireA_hit rolls r h]
  simp only []
  rw [if_pos (by norm_num : (0 : Int) ≤ 0)]
  exact finalResult_win1 rolls (by norm_num) (by norm_num)

/-- Sudden-death round, A misses and B hits: B wins, two rolls consumed. -/
lemma loopC_stepMissHit (f : ℕ) (rolls : List Roll) (r1 r2 : Roll)
    (h1 : shipA1.hit r1 1 = false) (h2 : shipB1.hit r2 1 = true) :
    cannonLoop shipA1 shipB1 true (f + 2) 1 1 (r1 :: r2 :: rolls) =
      some (-1, rolls) := by
  rw [cannonLoop_succ_eval, if_pos (by decide)]
  rw [fireA_miss (r2 :: rolls) r1 h1]
  simp only []
  rw [if_neg (by norm_num : ¬(1 : Int) ≤ 0)]
  rw [fireB_hit rolls r2 h2]
  simp only []
  rw [cannonLoop_succ_eval, if_neg (by decide)]
  exact finalResult_win2 rolls (by norm_num) (by norm_num)

/-- Sudden-death round, both miss: state returns to the start with two
rolls consumed and one loop iteration spent. -/
lemma loopC_stepMissMiss (f : ℕ) (rolls : List Roll) (r1 r2 : Roll)
    (h1 : shipA1.hit r1 1 = false) (h2 : shipB1.hit r2 1 = false) :
    cannonLoop shipA1 shipB1 true (f + 1) 1 1 (r1 :: r2 :: rolls) =
      cannonLoop shipA1 shipB1 true f 1 1 rolls := by
  rw [cannonLoop_succ_eval, if_pos (by decide)]
  rw [fireA_miss (r2 :: rolls) r1 h1]
  simp only []
  rw [if_neg (by norm_num : ¬(1 : Int) ≤ 0)]
  rw [fireB_miss rolls r2 h2]

/-- Sudden-death with no rolls left: the run aborts. -/
lemma loopC_nil (f : ℕ) :
    cannonLoop shipA1 shipB1 true (f + 1) 1 1 [] = none := by
  rw [cannonLoop_succ_eval, if_pos (by decide)]
  have h : shipA1.fire shipB1.shield shipA1.cannons 1 [] = none := rfl
  rw [h]

/-- Sudden-death with one roll that misses: the run aborts waiting for
B's roll. -/
lemma loopC_one (f : ℕ) (r : Roll) (h1 : shipA1.hit r 1 = false) :
    cannonLoop shipA1 shipB1 true (f + 1) 1 1 [r] = none := by
  rw [cannonLoop_succ_eval, if_pos (by decide)]
  rw [fireA_miss [] r h1]
  simp only []
  rw [if_neg (by norm_num : ¬(1 : Int) ≤ 0)]
  have h : shipB1.fire shipA1.shield shipB1.cannons 1 ([] : List Roll) =
      none := rfl
  rw [h]

/-- Any fuel beyond the roll count gives the same sudden-death result:
each loop iteration consumes at least one roll. -/
lemma loopC_fuel :
    ∀ (n : ℕ) (L : List Roll) (f g : ℕ), L.length ≤ n → L.length < f →
      L.length < g →
      cannonLoop shipA1 shipB1 true f 1 1 L =
        cannonLoop shipA1 shipB1 true g 1 1 L := by
  intro n
  induction n with
  | zero =>
    intro L f g hn hf hg
    have hL : L = [] := List.length_eq_zero.mp (by omega)
    subst hL
    obtain ⟨f', rfl⟩ : ∃ f', f = f' + 1 := ⟨f - 1, by omega⟩
    obtain ⟨g', rfl⟩ : ∃ g', g = g' + 1 := ⟨g - 1, by omega⟩
    rw [loopC_nil, loopC_nil]
  | succ n ih =>
    intro L f g hn hf hg
    cases L with
    | nil =>
      obtain ⟨f', rfl⟩ : ∃ f', f = f' + 1 := ⟨f - 1, by omega⟩
      obtain ⟨g', rfl⟩ : ∃ g', g = g' + 1 := ⟨g - 1, by omega⟩
      rw [loopC_nil, loopC_nil]
    | cons r1 L1 =>
      by_cases h1 : shipA1.hit r1 1 = true
      · obtain ⟨f', rfl⟩ : ∃ f', f = f' + 1 := ⟨f - 1, by omega⟩
        obtain ⟨g', rfl⟩ : ∃ g', g = g' + 1 := ⟨g - 1, by omega⟩
        rw [loopC_stepHit f' L1 r1 h1, loopC_stepHit g' L1 r1 h1]
      · have h1' := hit_false_of_not_true h1
        cases L1 with
        | nil =>
          obtain ⟨f', rfl⟩ : ∃ f', f = f' + 1 := ⟨f - 1, by omega⟩
          obtain ⟨g', rfl⟩ : ∃ g', g = g' + 1 := ⟨g - 1, by omega⟩
          rw [loopC_one f' r1 h1', loopC_one g' r1 h1']
        | cons r2 L2 =>
          simp only [List.length_cons] at hn hf hg
          by_cases h2 : shipB1.hit r2 1 = true
          · obtain ⟨f', rfl⟩ : ∃ f', f = f' + 2 := ⟨f - 2, by omega⟩
            obtain ⟨g', rfl⟩ : ∃ g', g = g' + 2 := ⟨g - 2, by omega⟩
            rw [loopC_stepMissHit f' L2 r1 r2 h1' h2,
              loopC_stepMissHit g' L2 r1 r2 h1' h2]
          · have h2' := hit_false_of_not_true h2
            obtain ⟨f', rfl⟩ : ∃ f', f = f' + 1 := ⟨f - 1, by omega⟩
            obtain ⟨g', rfl⟩ : ∃ g', g = g' + 1 := ⟨g - 1, by omega⟩
            rw [loopC_stepMissMiss f' L2 r1 r2 h1' h2',
              loopC_stepMissMiss g' L2 r1 r2 h1' h2']
            exact ih L2 f' g' (by omega) (by omega) (by omega)

/-- `List.ofFn` of a `Fin.cons` splits off the head. -/
lemma ofFn_cons (n : ℕ) (r : Fin 6) (s : Fin n → Fin 6) :
    List.ofFn (Fin.cons r s : Fin (n + 1) → Fin 6) = r :: List.ofFn s := by
  simp [List.ofFn_succ]

/-- Counting roll sequences of length `n + 1` satisfying a predicate
splits into a sum over the first draw of counts over the remaining `n`
draws. -/
lemma card_filter_ofFn_succ (n : ℕ) (P : List Roll → Prop)
    [DecidablePred P] :
    ((Finset.univ : Finset (Fin (n + 1) → Fin 6)).filter
        (fun s => P ((List.ofFn s).map rollOfFin))).card
      = ∑ r : Fin 6,
          ((Finset.univ : Finset (Fin n → Fin 6)).filter
            (fun s => P (rollOfFin r :: (List.ofFn s).map rollOfFin))).card := by
  rw [Finset.card_filter]
  rw [← Fintype.sum_equiv (Fin.consEquiv (fun _ : Fin (n + 1) => Fin 6))
      (fun p : Fin 6 × (Fin n → Fin 6) =>
        if P (rollOfFin p.1 :: (List.ofFn p.2).map rollOfFin) then 1 else 0)
      (fun s : Fin (n + 1) → Fin 6 =>
        if P ((List.ofFn s).map rollOfFin) then 1 else 0)
      (fun p => by
        show (if P (rollOfFin p.1 :: (List.ofFn p.2).map rollOfFin)
            then 1 else 0) =
          (if P ((List.ofFn (Fin.cons p.1 p.2)).map rollOfFin) then 1 else 0)
        rw [ofFn_cons, List.map_cons])]
  rw [Fintype.sum_prod_type]
  refine Finset.sum_congr rfl ?_
  intro r _
  rw [Finset.card_filter]

/-- The number of roll-index sequences of length `n` (drawn uniformly
from the six outcomes) on which one run of the sudden-death duel of claim
C2 ends with a win for ship A.  Fuel `n + 1` never binds before the rolls
run out, since every loop iteration consumes at least one roll. -/
def winCount (n : ℕ) : ℕ :=
  ((Finset.univ : Finset (Fin n → Fin 6)).filter
    (fun s => (simulateOnce (n + 1) shipA1 shipB1
        ((List.ofFn s).map rollOfFin)).map Prod.fst = some 1)).card

/-- First draw hits for A: every continuation is an A-win. -/
lemma card_hit_term (m : ℕ) (r : Fin 6)
    (hr : shipA1.hit (rollOfFin r) 1 = true) :
    ((Finset.univ : Finset (Fin m → Fin 6)).filter
      (fun s => (simulateOnce (m + 2) shipA1 shipB1
        (rollOfFin r :: (List.ofFn s).map rollOfFin)).map Prod.fst =
          some 1)).card = 6 ^ m := by
  have hall : ∀ s : Fin m → Fin 6,
      (simulateOnce (m + 2) shipA1 shipB1
        (rollOfFin r :: (List.ofFn s).map rollOfFin)).map Prod.fst =
        some 1 := by
    intro s
    rw [sim_eq_loopC, loopC_stepHit (m + 1) _ _ hr]
    rfl
  rw [Finset.filter_true_of_mem (fun s _ => hall s)]
  rw [Finset.card_univ, Fintype.card_fun, Fintype.card_fin, Fintype.card_fin]

/-- First draw misses for A, second is B's auto-hit: B wins, never A. -/
lemma card_autoB_term (m : ℕ) (r : Fin 6)
    (hr : shipA1.hit (rollOfFin r) 1 = false) :
    ((Finset.univ : Finset (Fin m → Fin 6)).filter
      (fun s => (simulateOnce (m + 3) shipA1 shipB1
        (rollOfFin r :: rollOfFin 5 :: (List.ofFn s).map rollOfFin)).map
          Prod.fst = some 1)).card = 0 := by
  refine Finset.card_eq_zero.mpr (Finset.filter_eq_empty_iff.mpr ?_)
  intro s _
  rw [sim_eq_loopC, loopC_stepMissHit (m + 1) _ _ _ hr
    (by decide : shipB1.hit (rollOfFin 5) 1 = true)]
  simp

/-- Both first draws miss: the round resets and the count is the count of
the remaining shorter sequences. -/
lemma card_cont_term (m : ℕ) (r r2 : Fin 6)
    (hr : shipA1.hit (rollOfFin r) 1 = false)
    (hr2 : shipB1.hit (rollOfFin r2) 1 = false) :
    ((Finset.univ : Finset (Fin m → Fin 6)).filter
      (fun s => (simulateOnce (m + 3) shipA1 shipB1
        (rollOfFin r :: rollOfFin r2 ::
          (List.ofFn s).map rollOfFin)).map Prod.fst = some 1)).card
      = winCount m := by
  rw [winCount]
  refine congrArg Finset.card (Finset.filter_congr ?_)
  intro s _
  have hlen : ((List.ofFn s).map rollOfFin).length = m := by simp
  have hstep : simulateOnce (m + 3) shipA1 shipB1
      (rollOfFin r :: rollOfFin r2 :: (List.ofFn s).map rollOfFin) =
      simulateOnce (m + 1) shipA1 shipB1 ((List.ofFn s).map rollOfFin) := by
    rw [sim_eq_loopC, sim_eq_loopC]
    rw [show m + 3 = (m + 2) + 1 from rfl]
    rw [loopC_stepMissMiss (m + 2) _ _ _ hr hr2]
    exact loopC_fuel m ((List.ofFn s).map rollOfFin) (m + 2) (m + 1)
      (by omega) (by omega) (by omega)
  rw [hstep]

/-- First draw misses for A: summing over B's reply, five of the six
replies reset the round and the auto-hit wins for B. -/
lemma card_miss_term (m : ℕ) (r : Fin 6)
    (hr : shipA1.hit (rollOfFin r) 1 = false) :
    ((Finset.univ : Finset (Fin (m + 1) → Fin 6)).filter
      (fun s => (simulateOnce (m + 3) shipA1 shipB1
        (rollOfFin r :: (List.ofFn s).map rollOfFin)).map Prod.fst =
          some 1)).card = 5 * winCount m := by
  rw [card_filter_ofFn_succ m
    (fun l => (simulateOnce (m + 3) shipA1 shipB1
      (rollOfFin r :: l)).map Prod.fst = some 1)]
  rw [Fin.sum_univ_six]
  rw [card_cont_term m r 0 hr (by decide), card_cont_term m r 1 hr (by decide),
    card_cont_term m r 2 hr (by decide), card_cont_term m r 3 hr (by decide),
    card_cont_term m r 4 hr (by decide), card_autoB_term m r hr]
  omega

/-- The A-win count satisfies the sudden-death recurrence: of the 36
equiprobable two-roll openings, 12 (A hits, any reply, with the reply
actually unread) win at once, 4 lose to B's auto-hit, and 20 reset the
round. -/
lemma winCount_rec (n : ℕ) :
    winCount (n + 2) = 2 * 6 ^ (n + 1) + 20 * winCount n := by
  have e : winCount (n + 2) =
      ((Finset.univ : Finset (Fin (n + 1 + 1) → Fin 6)).filter
        (fun s => (simulateOnce (n + 3) shipA1 shipB1
          ((List.ofFn s).map rollOfFin)).map Prod.fst = some 1)).card := rfl
  rw [e]
  rw [card_filter_ofFn_succ (n + 1)
    (fun l => (simulateOnce (n + 3) shipA1 shipB1 l).map Prod.fst = some 1)]
  rw [Fin.sum_univ_six]
  rw [card_miss_term n 0 (by decide), card_miss_term n 1 (by decide),
    card_miss_term n 2 (by decide), card_miss_term n 3 (by decide)]
  rw [show ((n : ℕ) + 3) = (n + 1) + 2 from rfl]
  rw [card_hit_term (n + 1) 4 (by decide), card_hit_term (n + 1) 5 (by decide)]
  ring

/-- No sequence of length zero decides the duel. -/
lemma winCount_zero : winCount 0 = 0 := by decide

/-- Closed form: `4·winCount(2m) + 3·20^m = 3·36^m`. -/
lemma winCount_closed (m : ℕ) :
    4 * winCount (2 * m) + 3 * 20 ^ m = 3 * 36 ^ m := by
  induction m with
  | zero =>
    rw [show 2 * 0 = 0 from rfl, winCount_zero]
    norm_num
  | succ k ih =>
    have h1 : 2 * (k + 1) = (2 * k) + 2 := by ring
    rw [h1, winCount_rec (2 * k)]
    have h6 : (6 : ℕ) ^ (2 * k + 1) = 6 * 36 ^ k := by
      rw [pow_succ, pow_mul]
      ring
    rw [h6, pow_succ, pow_succ]
    omega

example : winCount 1 = 2 := by decide

example : winCount 2 = 12 := by decide

/-- C2.  In the sudden-death scenario (A: initiative 5, hull 1, computer
2, shield 1, no missiles, one 1-damage cannon; B: initiative 4, hull 1,
computer 1, shield 1, no missiles, one 1-damage cannon), the probability
that one run of `_simulate_once` ends with a win for A — formalised as
the limiting fraction of uniform roll-index sequences on which the run
returns `1` — is exactly `3/4`. -/
theorem C2_sudden_death_probability :
    Filter.Tendsto (fun m : ℕ => (winCount (2 * m) : ℝ) / 36 ^ m)
      Filter.atTop (nhds (3 / 4)) := by
  have hpt : ∀ m : ℕ, (winCount (2 * m) : ℝ) / 36 ^ m =
      3 / 4 - 3 / 4 * (5 / 9 : ℝ) ^ m := by
    intro m
    have hr : (4 : ℝ) * winCount (2 * m) + 3 * 20 ^ m = 3 * 36 ^ m := by
      exact_mod_cast winCount_closed m
    have h36 : ((36 : ℝ)) ^ m ≠ 0 := by positivity
    have h59 : ((5 : ℝ) / 9) ^ m * 36 ^ m = 20 ^ m := by
      rw [← mul_pow]
      norm_num
    rw [div_eq_iff h36, sub_mul, mul_assoc (3 / 4 : ℝ), h59]
    linarith [hr]
  have hlim : Filter.Tendsto
      (fun m : ℕ => 3 / 4 - 3 / 4 * (5 / 9 : ℝ) ^ m) Filter.atTop
      (nhds (3 / 4 - 3 / 4 * 0)) :=
    Filter.Tendsto.sub tendsto_const_nhds
      ((tendsto_pow_atTop_nhds_zero_of_lt_one (by norm_num)
        (by norm_num)).const_mul (3 / 4))
  rw [mul_zero, sub_zero] at hlim
  exact (Filter.tendsto_congr hpt).mpr hlim

end Eclipse
